import Mathlib

/-!
Verification of the spatial-connection engine and network path finder of the
`enedis_final` repository, via a shallow embedding of the Python sources into
Lean.  Distances are modelled by rationals; the shapely geometry kernel is
external to the repository, so the exact disk test `geometry.intersects
(endpoint.buffer(r))` is modelled by `distance ≤ r` and metric distances are
carried as data on the candidate rows.
-/

namespace Enedis

/-- A candidate feature as seen from one probe endpoint: its id, source layer
and metric distance from the endpoint (column `distance` computed by
`candidates.geometry.distance(endpoint)` in the sources). -/
structure Row where
  id : String
  sourceLayer : String
  dist : ℚ
deriving DecidableEq, Repr

/-- One entry of a `priority_connections` or `solo_connection_if` table:
a Python dict with optional keys `priority` and `radius`. -/
structure Rule where
  priority : Option Int
  radius : Option ℚ
deriving DecidableEq, Repr

/-- `ConnectionCandidate` of `update_enedis_data/connections.py`: id, layer,
distance and priority (default 999 in the dataclass). -/
structure Cand where
  id : String
  sourceLayer : String
  distance : ℚ
  priority : Int
deriving DecidableEq, Repr

/-- Dictionary lookup in a rules table (`solo_dict[layer]`,
`priority_connections.get(layer)`). -/
def findRule (t : List (String × Rule)) (k : String) : Option Rule :=
  (t.find? (fun p => p.1 == k)).map (·.2)

/-- `layer in table.keys()` (`.isin(dict.keys())` in pandas). -/
def hasRule (t : List (String × Rule)) (k : String) : Bool :=
  (findRule t k).isSome

/-- `ConnectionCandidate.__lt__`: compare by priority first, then by
distance. -/
def candLtb (a b : Cand) : Bool :=
  if a.priority = b.priority then decide (a.distance < b.distance)
  else decide (a.priority < b.priority)

/-- The (priority, distance) sort key of a candidate, in the lexicographic
order. -/
def ckey (c : Cand) : Lex (Int × ℚ) := toLex (c.priority, c.distance)

lemma candLtb_iff_ckey (a b : Cand) : candLtb a b = true ↔ ckey a < ckey b := by
  unfold candLtb ckey
  rw [Prod.Lex.lt_iff]
  by_cases h : a.priority = b.priority <;> simp [h]

/-- `valid_candidates.sort()` followed by `valid_candidates[0]`: the sort is
stable and ascending for `__lt__`, so the first element is the earliest
minimal element.  We model it by a fold that replaces the current best only
on strict `__lt__`. -/
def bestCand (c : Cand) (l : List Cand) : Cand :=
  l.foldl (fun m x => if candLtb x m then x else m) c

lemma bestCand_cons (c x : Cand) (l : List Cand) :
    bestCand c (x :: l) = bestCand (if candLtb x c then x else c) l := rfl

lemma bestCand_mem (c : Cand) (l : List Cand) : bestCand c l ∈ c :: l := by
  induction l generalizing c with
  | nil => simp [bestCand]
  | cons x l ih =>
    rw [bestCand_cons]
    rcases List.mem_cons.mp (ih (if candLtb x c then x else c)) with h | h
    · rw [h]
      by_cases hx : candLtb x c = true <;> simp [hx]
    · exact List.mem_cons.mpr (Or.inr (List.mem_cons.mpr (Or.inr h)))

/-- The selected candidate is minimal for the (priority, distance)
lexicographic order among the initial candidate and the list. -/
lemma bestCand_le (c : Cand) (l : List Cand) :
    ∀ z ∈ c :: l, ckey (bestCand c l) ≤ ckey z := by
  induction l generalizing c with
  | nil =>
    intro z hz
    simp only [List.mem_singleton] at hz
    simp [hz, bestCand]
  | cons x l ih =>
    intro z hz
    rw [bestCand_cons]
    by_cases hx : candLtb x c = true
    · rw [if_pos hx]
      have hxc : ckey x < ckey c := (candLtb_iff_ckey x c).mp hx
      have hbx : ckey (bestCand x l) ≤ ckey x := ih x x (List.mem_cons_self x l)
      rcases List.mem_cons.mp hz with h1 | h2
      · rw [h1]
        exact le_trans hbx (le_of_lt hxc)
      · rcases List.mem_cons.mp h2 with h3 | h4
        · rw [h3]
          exact hbx
        · exact ih x z (List.mem_cons.mpr (Or.inr h4))
    · rw [if_neg hx]
      have hcx : ckey c ≤ ckey x :=
        le_of_not_lt ((candLtb_iff_ckey x c).not.mp (by simp [hx]))
      have hbc : ckey (bestCand c l) ≤ ckey c := ih c c (List.mem_cons_self c l)
      rcases List.mem_cons.mp hz with h1 | h2
      · rw [h1]
        exact hbc
      · rcases List.mem_cons.mp h2 with h3 | h4
        · rw [h3]
          exact le_trans hbc hcx
        · exact ih c z (List.mem_cons.mpr (Or.inr h4))

/-- Stable insertion of a row into a list sorted by ascending distance:
the inserted (earlier) row goes before later rows at equal distance,
mirroring a stable `sort(key=distance)`. -/
def insertByDist (r : Row) : List Row → List Row
  | [] => [r]
  | x :: xs => if r.dist ≤ x.dist then r :: x :: xs else x :: insertByDist r xs

/-- `match_distances.sort(key=lambda x: x[1])`: stable sort by distance. -/
def sortByDist : List Row → List Row
  | [] => []
  | x :: xs => insertByDist x (sortByDist xs)

/-- The admissible candidate pool of an endpoint probe, common to
`_search_with_radius` (`update_enedis_data/connections.py`) and the endpoint
blocks of `data_connections/connections.py`: features whose geometry
intersects the endpoint's buffer of the search radius (modelled by
`distance ≤ radius`), minus the excluded layers (`if exclude_list: ...`). -/
def poolMatches (rows : List Row) (searchRadius : ℚ) (excludeList : List String) : List Row :=
  let inBuffer := rows.filter (fun r => r.dist ≤ searchRadius)
  if excludeList.isEmpty then inBuffer
  else inBuffer.filter (fun r => !(excludeList.contains r.sourceLayer))

/-- Python truthiness of an optional rules table (`None` and the empty dict
are falsy). -/
def truthy : Option (List (String × Rule)) → Bool
  | none => false
  | some l => !l.isEmpty

end Enedis

namespace UpdateEnedis

open Enedis

/-- `CONNECTION_RADIUS[RadiusType.FAR]` from `update_enedis_data/config.py`. -/
def CONNECTION_RADIUS_FAR : ℚ := 10

/-- One row of the solo-candidate loop of `_search_with_radius`
(`update_enedis_data/connections.py`): keep the row as a
`ConnectionCandidate` when its distance is within the layer's solo radius,
with the solo table's priority (`.get("priority", 999)`).  The `radius` key
is read by direct indexing in Python and is present in every shipped
configuration. -/
def mkSoloCand (sd : List (String × Rule)) (r : Row) : Option Cand :=
  match findRule sd r.sourceLayer with
  | some rule =>
    if r.dist ≤ rule.radius.getD 0 then
      some ⟨r.id, r.sourceLayer, r.dist, rule.priority.getD 999⟩
    else none
  | none => none

/-- One row of the priority-candidate loop of `_search_with_radius`:
`max_radius = layer_config.get("radius", search_radius)` and
`priority = layer_config.get("priority", 999)`. -/
def mkPrioCand (pc : List (String × Rule)) (searchRadius : ℚ) (r : Row) : Option Cand :=
  match findRule pc r.sourceLayer with
  | some rule =>
    if r.dist ≤ rule.radius.getD searchRadius then
      some ⟨r.id, r.sourceLayer, r.dist, rule.priority.getD 999⟩
    else none
  | none => none

/-- The solo block of `_search_with_radius`: when a solo table is given and
some pool candidate from a solo layer is within that layer's radius, return
the single best candidate after `valid_candidates.sort()` (priority first,
then distance).  `none` means fall through to the next block. -/
def soloSelect (matchRows : List Row) (soloDict : Option (List (String × Rule))) :
    Option (List Cand) :=
  match soloDict with
  | none => none
  | some sd =>
    let candidates := matchRows.filter (fun r => hasRule sd r.sourceLayer)
    if candidates.isEmpty then none
    else
      match candidates.filterMap (mkSoloCand sd) with
      | [] => none
      | c :: cs => some [bestCand c cs]

/-- The mono-connection block of `_search_with_radius`: guarded by
`mono_connection and priority_connections` (truthy: non-`None`, non-empty),
returning the single best candidate of the priority table within radius. -/
def monoSelect (matchRows : List Row) (searchRadius : ℚ)
    (priorityConnections : Option (List (String × Rule))) (monoConnection : Bool) :
    Option (List Cand) :=
  match priorityConnections with
  | none => none
  | some pc =>
    if monoConnection && !pc.isEmpty then
      let candidates := matchRows.filter (fun r => hasRule pc r.sourceLayer)
      if candidates.isEmpty then none
      else
        match candidates.filterMap (mkPrioCand pc searchRadius) with
        | [] => none
        | c :: cs => some [bestCand c cs]
    else none

/-- The final block of `_search_with_radius`: keep up to `max_connections`
closest matchRows (stable sort by distance), with the dataclass default
priority 999. -/
def defaultSelect (matchRows : List Row) (maxConnections : ℕ) : List Cand :=
  ((sortByDist matchRows).take maxConnections).map
    (fun r => ⟨r.id, r.sourceLayer, r.dist, 999⟩)

/-- `_search_with_radius` of `update_enedis_data/connections.py`: buffer
probe, exclusion filter, then solo rule, mono-priority rule and default
keep-all rule, the first block that produces candidates winning. -/
def searchWithRadius (rows : List Row) (searchRadius : ℚ) (excludeList : List String)
    (priorityConnections : Option (List (String × Rule))) (monoConnection : Bool)
    (soloDict : Option (List (String × Rule))) (maxConnections : ℕ) : List Cand :=
  let matchRows := poolMatches rows searchRadius excludeList
  if matchRows.isEmpty then []
  else
    match soloSelect matchRows soloDict with
    | some result => result
    | none =>
      match monoSelect matchRows searchRadius priorityConnections monoConnection with
      | some result => result
      | none => defaultSelect matchRows maxConnections

/-- `select_connection_candidates` of `update_enedis_data/connections.py`:
probe at the base radius, and when that yields nothing while
`priority_connections and mono_connection` holds, retry once with
`CONNECTION_RADIUS[RadiusType.FAR]`. -/
def selectConnectionCandidates (rows : List Row) (baseRadius : ℚ)
    (excludeList : List String) (priorityConnections : Option (List (String × Rule)))
    (monoConnection : Bool) (soloDict : Option (List (String × Rule)))
    (maxConnections : ℕ) : List Cand :=
  let candidates := searchWithRadius rows baseRadius excludeList priorityConnections
    monoConnection soloDict maxConnections
  if candidates.isEmpty && truthy priorityConnections && monoConnection then
    searchWithRadius rows CONNECTION_RADIUS_FAR excludeList priorityConnections
      monoConnection soloDict maxConnections
  else candidates

/-- Concrete data for the solo rule: the solo table of the
`reseau_souterrain_hta` layer (distinct priorities 1 and 2, FAR radius 10),
one `postes_electrique` candidate at distance 1 and one `postes_source`
candidate at distance 3, both within every radius involved. -/
def soloExRows : List Row :=
  [⟨"pe1", "postes_electrique", 1⟩, ⟨"ps1", "postes_source", 3⟩]

def soloExTable : List (String × Rule) :=
  [("postes_source", ⟨some 1, some 10⟩), ("postes_electrique", ⟨some 2, some 10⟩)]

/-- Claim C1, counterexample.  With the `reseau_souterrain_hta` solo table
(priorities 1 and 2), an endpoint with a `postes_electrique` candidate at
distance 1 and a `postes_source` candidate at distance 3 keeps `ps1`
(priority 1, distance 3) although `pe1` is a solo candidate within its
radius at strictly smaller distance: `_search_with_radius` sorts solo
candidates by (priority, distance), not by distance alone, so the claim's
"candidate of smallest metric distance among those solo candidates" is
false. -/
theorem solo_rule_picks_priority_not_distance :
    searchWithRadius soloExRows 5 [] none false (some soloExTable) 10 =
      [⟨"ps1", "postes_source", 3, 1⟩] ∧
    mkSoloCand soloExTable ⟨"pe1", "postes_electrique", 1⟩ =
      some ⟨"pe1", "postes_electrique", 1, 2⟩ ∧
    (⟨"pe1", "postes_electrique", 1⟩ : Row) ∈ poolMatches soloExRows 5 [] ∧
    (1 : ℚ) < 3 ∧ ("pe1" : String) ≠ "ps1" := by
  refine ⟨by decide, by decide, by decide, by norm_num, by decide⟩

/-- Claim C1, amended.  When the solo rule fires at an endpoint — i.e. the
admissible pool contains some candidate of a solo layer within that layer's
solo radius — `_search_with_radius` returns exactly one candidate, namely
the (priority, distance)-lexicographically smallest of those solo
candidates (priorities taken from the solo table); the priority-mono and
default blocks are not consulted. -/
theorem solo_rule_fires_unique_lex_min
    (rows : List Row) (searchRadius : ℚ) (excludeList : List String)
    (priorityConnections : Option (List (String × Rule))) (monoConnection : Bool)
    (sd : List (String × Rule)) (maxConnections : ℕ) (c : Cand) (cs : List Cand)
    (hv : ((poolMatches rows searchRadius excludeList).filter
        (fun r => hasRule sd r.sourceLayer)).filterMap (mkSoloCand sd) = c :: cs) :
    searchWithRadius rows searchRadius excludeList priorityConnections
        monoConnection (some sd) maxConnections = [bestCand c cs] ∧
    bestCand c cs ∈ c :: cs ∧
    ∀ z ∈ c :: cs, ckey (bestCand c cs) ≤ ckey z := by
  have hcand : ((poolMatches rows searchRadius excludeList).filter
      (fun r => hasRule sd r.sourceLayer)).isEmpty = false := by
    cases h : (poolMatches rows searchRadius excludeList).filter
        (fun r => hasRule sd r.sourceLayer) with
    | nil =>
      rw [h] at hv
      simp at hv
    | cons a l => rfl
  have hmne : (poolMatches rows searchRadius excludeList).isEmpty = false := by
    cases h : poolMatches rows searchRadius excludeList with
    | nil =>
      rw [h] at hcand
      simp at hcand
    | cons a l => rfl
  have hsolo : soloSelect (poolMatches rows searchRadius excludeList) (some sd) =
      some [bestCand c cs] := by
    unfold soloSelect
    simp only [hcand, Bool.false_eq_true, if_neg, not_false_eq_true, hv]
  refine ⟨?_, bestCand_mem c cs, bestCand_le c cs⟩
  unfold searchWithRadius
  simp only [hmne, Bool.false_eq_true, if_neg, not_false_eq_true, hsolo]

/-- Witness for the amended claim C1 at the concrete solo example. -/
theorem solo_rule_fires_unique_lex_min_witness :
    searchWithRadius soloExRows 5 [] none false (some soloExTable) 10 =
      [bestCand ⟨"pe1", "postes_electrique", 1, 2⟩ [⟨"ps1", "postes_source", 3, 1⟩]] ∧
    bestCand ⟨"pe1", "postes_electrique", 1, 2⟩ [⟨"ps1", "postes_source", 3, 1⟩] ∈
      (⟨"pe1", "postes_electrique", 1, 2⟩ : Cand) :: [⟨"ps1", "postes_source", 3, 1⟩] ∧
    ∀ z ∈ (⟨"pe1", "postes_electrique", 1, 2⟩ : Cand) :: [⟨"ps1", "postes_source", 3, 1⟩],
      ckey (bestCand ⟨"pe1", "postes_electrique", 1, 2⟩ [⟨"ps1", "postes_source", 3, 1⟩]) ≤ ckey z :=
  solo_rule_fires_unique_lex_min soloExRows 5 [] none false soloExTable 10
    ⟨"pe1", "postes_electrique", 1, 2⟩ [⟨"ps1", "postes_source", 3, 1⟩] (by decide)

/-- Concrete data for the FAR retry: a single admissible candidate of a
layer absent from the priority table, beyond the base radius 2 but within
the FAR radius 10. -/
def retryExRows : List Row := [⟨"x1", "autre", 5⟩]

def retryExPrio : List (String × Rule) := [("postes_source", ⟨some 1, some 10⟩)]

/-- Claim C3, counterexample.  The base-radius probe returns nothing, the
layer is mono with a non-empty priority table, so a FAR retry runs — and it
returns the candidate `x1` whose layer is not in the priority table: the
retry went through the default keep-all block (priority 999), refuting "the
retry never yields a candidate selected by the solo rule or by the default
keep-all rule". -/
theorem far_retry_uses_default_rule :
    searchWithRadius retryExRows 2 [] (some retryExPrio) true none 10 = [] ∧
    selectConnectionCandidates retryExRows 2 [] (some retryExPrio) true none 10 =
      [⟨"x1", "autre", 5, 999⟩] ∧
    hasRule retryExPrio "autre" = false := by
  refine ⟨by decide, by decide, by decide⟩

/-- Claim C3, amended.  When the base-radius probe yields no candidates and
the layer is mono with a non-empty priority table, exactly one retry is
performed at the configured FAR radius, and that retry runs the full
`_search_with_radius` pipeline (solo rule first, then priority-mono, then
the default keep-all rule) — not the priority-mono rule alone. -/
theorem far_retry_runs_full_pipeline
    (rows : List Row) (baseRadius : ℚ) (excludeList : List String)
    (pc : List (String × Rule)) (soloDict : Option (List (String × Rule)))
    (maxConnections : ℕ)
    (hbase : searchWithRadius rows baseRadius excludeList (some pc) true soloDict
      maxConnections = [])
    (hpc : pc ≠ []) :
    selectConnectionCandidates rows baseRadius excludeList (some pc) true soloDict
        maxConnections =
      searchWithRadius rows CONNECTION_RADIUS_FAR excludeList (some pc) true soloDict
        maxConnections := by
  unfold selectConnectionCandidates
  have h1 : (searchWithRadius rows baseRadius excludeList (some pc) true soloDict
      maxConnections).isEmpty = true := by
    rw [hbase]
    rfl
  have h2 : truthy (some pc) = true := by
    unfold truthy
    simp [hpc]
  simp only [h1, h2, Bool.and_self, Bool.true_and, if_pos]

/-- Witness for the amended claim C3 at the concrete retry example. -/
theorem far_retry_runs_full_pipeline_witness :
    selectConnectionCandidates retryExRows 2 [] (some retryExPrio) true none 10 =
      searchWithRadius retryExRows CONNECTION_RADIUS_FAR [] (some retryExPrio) true none 10 :=
  far_retry_runs_full_pipeline retryExRows 2 [] retryExPrio none 10 (by decide)
    (by decide)

end UpdateEnedis

namespace DataConnections

open Enedis

/-- `table[layer]["radius"]`: required indexing into a rules table; the key
is present for every row that passed the `.isin(table.keys())` filter, and
`radius` is set in every shipped configuration. -/
def ruleRadiusD (t : List (String × Rule)) (k : String) : ℚ :=
  match findRule t k with
  | some rule => rule.radius.getD 0
  | none => 0

/-- `valid_candidates["priority"] = ...map(lambda s:
priority_connections[s]["priority"])`: a row decorated with its table
priority, giving the sort key of
`sort_values(by=["priority", "distance"])`. -/
def prioCandOfRow (pc : List (String × Rule)) (r : Row) : Cand :=
  ⟨r.id, r.sourceLayer, r.dist,
    match findRule pc r.sourceLayer with
    | some rule => rule.priority.getD 999
    | none => 999⟩

/-- `sort_values(by="distance")` followed by `.iloc[0]`: a minimal-distance
row. -/
def bestRowByDist (c : Row) (l : List Row) : Row :=
  l.foldl (fun m x => if x.dist < m.dist then x else m) c

/-- The `if not candidates.empty:` body of the priority-mono block of
`find_connections` (`data_connections/connections.py`): `none` when no
admissible candidate belongs to a priority layer, `some []` when such
candidates exist but all are beyond their layer radius, and a singleton of
the (priority, distance)-minimal candidate otherwise. -/
def monoPrioIds (matchRows : List Row) (pcl : List (String × Rule)) : Option (List String) :=
  let candidates := matchRows.filter (fun r => hasRule pcl r.sourceLayer)
  match candidates with
  | [] => none
  | _ =>
    let valid := candidates.filter (fun r => decide (r.dist ≤ ruleRadiusD pcl r.sourceLayer))
    match valid with
    | [] => some []
    | v :: vs => some [(bestCand (prioCandOfRow pcl v) (vs.map (prioCandOfRow pcl))).id]

/-- `set(start_matches["id"].tolist())` (as a list; ids of distinct rows). -/
def keepAllIds (matchRows : List Row) : List String := matchRows.map (·.id)

/-- One endpoint of `find_connections` in `data_connections/connections.py`
(the start- and end-endpoint blocks are verbatim copies of each other):
buffer probe and exclusion filter, then the solo rule if a solo table is
configured, then the priority-mono rule, with the keep-all fallback; the
feature's own id is removed at the end (`if feature["id"] in start_ids:
start_ids.remove(...)`).  When the solo table is present but no priority
candidate exists the endpoint gets the empty set, whereas without a solo
table the same situation keeps all matches. -/
def endpointSelect (rows : List Row) (baseRadius : ℚ) (excludeList : List String)
    (soloDict : Option (List (String × Rule))) (mono : Bool)
    (pc : Option (List (String × Rule))) (featureId : String) : List String :=
  let matchRows : List Row := poolMatches rows baseRadius excludeList
  let ids : List String :=
    match soloDict with
    | some sd =>
      let soloCandidates := matchRows.filter (fun (r : Row) => hasRule sd r.sourceLayer)
      let validSolo := soloCandidates.filter
        (fun (r : Row) => decide (r.dist ≤ ruleRadiusD sd r.sourceLayer))
      match validSolo with
      | v :: vs => [(bestRowByDist v vs).id]
      | [] =>
        if mono && truthy pc then
          match pc with
          | some pcl => (monoPrioIds matchRows pcl).getD []
          | none => []
        else keepAllIds matchRows
    | none =>
      if mono && truthy pc then
        match pc with
        | some pcl => (monoPrioIds matchRows pcl).getD (keepAllIds matchRows)
        | none => keepAllIds matchRows
      else keepAllIds matchRows
  if ids.contains featureId then ids.erase featureId else ids

/-- Concrete data: a mono layer whose priority table names only
`postes_source`, probed at an endpoint whose two admissible candidates both
belong to a layer outside the priority table. -/
def monoExRows : List Row := [⟨"o1", "other", 1⟩, ⟨"o2", "other", 1⟩]

def monoExPrio : List (String × Rule) := [("postes_source", ⟨some 1, some 7⟩)]

/-- Claim C2, counterexample.  With `mono_per_endpoint` true, a non-empty
priority table and no solo table, an endpoint whose admissible candidates
all lie outside the priority layers keeps ALL of them (two ids here):
`find_connections` falls back to `set(start_matches["id"].tolist())` when
no candidate is in a priority layer, so neither "at most one element" nor
"contributes the empty set" holds. -/
theorem priority_mono_keeps_all_without_priority_candidate :
    endpointSelect monoExRows 2 [] none true (some monoExPrio) "f" = ["o1", "o2"] ∧
    (endpointSelect monoExRows 2 [] none true (some monoExPrio) "f").length = 2 ∧
    hasRule monoExPrio "other" = false := by
  refine ⟨by decide, by decide, by decide⟩

/-- Claim C2, amended.  For an endpoint of a `mono_per_endpoint` layer with
a non-empty priority table and no solo table: if some admissible candidate
belongs to a priority layer, the endpoint's list has at most one element —
when additionally a priority candidate lies within its layer radius the
kept element is the (priority, distance)-lexicographic minimum of those
candidates, and when all priority candidates are beyond their radius the
endpoint contributes the empty set; if no admissible candidate belongs to a
priority layer at all, the default keep-all rule applies instead of the
empty set. -/
theorem priority_mono_selection
    (rows : List Row) (baseRadius : ℚ) (excludeList : List String)
    (pcl : List (String × Rule)) (featureId : String) (hpc : pcl ≠ []) :
    ((monoPrioIds (poolMatches rows baseRadius excludeList) pcl).isSome = true →
      (endpointSelect rows baseRadius excludeList none true (some pcl) featureId).length ≤ 1) ∧
    (∀ v : Row, ∀ vs : List Row,
      ((poolMatches rows baseRadius excludeList).filter
          (fun r => hasRule pcl r.sourceLayer)).filter
          (fun r => decide (r.dist ≤ ruleRadiusD pcl r.sourceLayer)) = v :: vs →
      (endpointSelect rows baseRadius excludeList none true (some pcl) featureId =
        (if [(bestCand (prioCandOfRow pcl v) (vs.map (prioCandOfRow pcl))).id].contains featureId
          then [(bestCand (prioCandOfRow pcl v) (vs.map (prioCandOfRow pcl))).id].erase featureId
          else [(bestCand (prioCandOfRow pcl v) (vs.map (prioCandOfRow pcl))).id]) ∧
        ∀ z ∈ (prioCandOfRow pcl v) :: vs.map (prioCandOfRow pcl),
          ckey (bestCand (prioCandOfRow pcl v) (vs.map (prioCandOfRow pcl))) ≤ ckey z)) ∧
    (((poolMatches rows baseRadius excludeList).filter
          (fun r => hasRule pcl r.sourceLayer)) ≠ [] →
      ((poolMatches rows baseRadius excludeList).filter
          (fun r => hasRule pcl r.sourceLayer)).filter
          (fun r => decide (r.dist ≤ ruleRadiusD pcl r.sourceLayer)) = [] →
      endpointSelect rows baseRadius excludeList none true (some pcl) featureId = []) ∧
    (((poolMatches rows baseRadius excludeList).filter
          (fun r => hasRule pcl r.sourceLayer)) = [] →
      endpointSelect rows baseRadius excludeList none true (some pcl) featureId =
        (if (keepAllIds (poolMatches rows baseRadius excludeList)).contains featureId
          then (keepAllIds (poolMatches rows baseRadius excludeList)).erase featureId
          else keepAllIds (poolMatches rows baseRadius excludeList))) := by
  have htr : truthy (some pcl) = true := by
    unfold truthy
    simp [hpc]
  have hsel : endpointSelect rows baseRadius excludeList none true (some pcl) featureId =
      (let ids := (monoPrioIds (poolMatches rows baseRadius excludeList) pcl).getD
        (keepAllIds (poolMatches rows baseRadius excludeList));
      if ids.contains featureId then ids.erase featureId else ids) := by
    unfold endpointSelect
    rw [htr]
    rfl
  refine ⟨?_, ?_, ?_, ?_⟩
  · intro hsome
    rw [hsel]
    rcases Option.isSome_iff_exists.mp hsome with ⟨ids, hids⟩
    unfold monoPrioIds at hids
    simp only at hids
    rcases hC : (poolMatches rows baseRadius excludeList).filter
        (fun r => hasRule pcl r.sourceLayer) with _ | ⟨a, l⟩
    · rw [hC] at hids
      simp at hids
    · rw [hC] at hids
      rcases hV : ((a :: l).filter
          (fun r => decide (r.dist ≤ ruleRadiusD pcl r.sourceLayer))) with _ | ⟨v, vs⟩ <;>
        rw [hV] at hids <;> simp only [Option.some.injEq] at hids
      · have : monoPrioIds (poolMatches rows baseRadius excludeList) pcl = some [] := by
          unfold monoPrioIds
          simp only [hC, hV]
        rw [this]
        simp
      · have : monoPrioIds (poolMatches rows baseRadius excludeList) pcl =
            some [(bestCand (prioCandOfRow pcl v) (vs.map (prioCandOfRow pcl))).id] := by
          unfold monoPrioIds
          simp only [hC, hV]
        rw [this]
        simp only [Option.getD_some]
        split
        · exact le_trans (List.Sublist.length_le (List.erase_sublist _ _)) (by simp)
        · simp
  · intro v vs hV
    have hC : (poolMatches rows baseRadius excludeList).filter
        (fun r => hasRule pcl r.sourceLayer) ≠ [] := by
      intro hnil
      rw [hnil] at hV
      simp at hV
    have hm : monoPrioIds (poolMatches rows baseRadius excludeList) pcl =
        some [(bestCand (prioCandOfRow pcl v) (vs.map (prioCandOfRow pcl))).id] := by
      unfold monoPrioIds
      rcases hC2 : (poolMatches rows baseRadius excludeList).filter
          (fun r => hasRule pcl r.sourceLayer) with _ | ⟨a, l⟩
      · exact absurd hC2 hC
      · rw [hC2] at hV
        simp only [hC2, hV]
    refine ⟨?_, bestCand_le (prioCandOfRow pcl v) (vs.map (prioCandOfRow pcl))⟩
    rw [hsel, hm]
    rfl
  · intro hC hV
    have hm : monoPrioIds (poolMatches rows baseRadius excludeList) pcl = some [] := by
      unfold monoPrioIds
      rcases hC2 : (poolMatches rows baseRadius excludeList).filter
          (fun r => hasRule pcl r.sourceLayer) with _ | ⟨a, l⟩
      · exact absurd hC2 hC
      · rw [hC2] at hV
        simp only [hC2, hV]
    rw [hsel, hm]
    rfl
  · intro hC
    have hm : monoPrioIds (poolMatches rows baseRadius excludeList) pcl = none := by
      unfold monoPrioIds
      simp only [hC]
    rw [hsel, hm]
    rfl

/-- Witness for the amended claim C2: at the concrete example the pool has
no priority-layer candidate, so the keep-all fallback fires. -/
theorem priority_mono_selection_witness :
    endpointSelect monoExRows 2 [] none true (some monoExPrio) "f" =
      (if (keepAllIds (poolMatches monoExRows 2 [])).contains "f"
        then (keepAllIds (poolMatches monoExRows 2 [])).erase "f"
        else keepAllIds (poolMatches monoExRows 2 [])) :=
  ((priority_mono_selection monoExRows 2 [] monoExPrio "f" (by decide)).2.2.2) (by decide)

end DataConnections

namespace UpdateEnedisDriver

/-- The result-collection loop of `find_connections` in
`update_enedis_data/connections.py`: futures are submitted in input index
order, but `for future in as_completed(futures): all_results.append(
future.result())` appends worker results in COMPLETION order.  `results` is
the list of per-feature worker outputs indexed by submission order, and
`completionOrder` is the order in which the executor finishes them. -/
def collectAsCompleted {α : Type} (results : List α) (completionOrder : List ℕ) : List α :=
  completionOrder.filterMap (fun i => results.get? i)

/-- The result-collection of `find_connections` in
`update_enedis_data/connections_core.py`: `executor.map` yields results in
input index order, independent of completion order. -/
def collectMapped {α : Type} (results : List α) : List α := results

/-- Claim C4.  The driver of `update_enedis_data/connections.py` appends
worker results in completion order: with two features in a chunk and the
second future completing first, the list bound positionally to the features
is the reversal of the index-ordered list, so the ConnectionSet assigned to
a feature depends on worker completion order (the `connections_core.py`
driver, using `executor.map`, is order-independent).  This refutes "the
driver collects worker results by iterating inputs in index order
regardless of completion order" for the `connections.py` driver. -/
theorem as_completed_collection_depends_on_completion_order :
    collectAsCompleted ["connsOfFeature0", "connsOfFeature1"] [1, 0] =
      ["connsOfFeature1", "connsOfFeature0"] ∧
    collectAsCompleted ["connsOfFeature0", "connsOfFeature1"] [0, 1] =
      ["connsOfFeature0", "connsOfFeature1"] ∧
    collectAsCompleted ["connsOfFeature0", "connsOfFeature1"] [1, 0] ≠
      collectAsCompleted ["connsOfFeature0", "connsOfFeature1"] [0, 1] ∧
    collectMapped ["connsOfFeature0", "connsOfFeature1"] =
      ["connsOfFeature0", "connsOfFeature1"] := by
  refine ⟨by decide, by decide, by decide, rfl⟩

end UpdateEnedisDriver

namespace UpdateEnedisWorker

open Enedis

/-- The LineString tail of `process_feature_worker`
(`update_enedis_data/connections.py`): remove the feature's own id from the
endpoint lists (`list.remove` drops the first occurrence after a membership
test) and emit `union_ids = list(set(start_ids + end_ids))`, modelled as
order-preserving deduplication. -/
def lineStringResult (startIds endIds : List String) (featureId : String) :
    List String × List String × List String :=
  let s := if startIds.contains featureId then startIds.erase featureId else startIds
  let e := if endIds.contains featureId then endIds.erase featureId else endIds
  ((s ++ e).dedup, s, e)

/-- The non-LineString tail of `process_feature_worker`: candidate ids with
the feature's own id removed, and empty endpoint lists. -/
def pointResult (candidateIds : List String) (featureId : String) :
    List String × List String × List String :=
  ((if candidateIds.contains featureId then candidateIds.erase featureId
    else candidateIds), [], [])

/-- One row of `validate_connections` (`update_enedis_data/connections.py`):
keep only ids of existing features, remove the feature's own id, and
truncate `connections` — but not the endpoint lists — to 60 entries when it
is longer. -/
structure RowData where
  id : String
  connections : List String
  startConnections : List String
  endConnections : List String
deriving DecidableEq, Repr

def validateRow (validIds : List String) (r : RowData) : RowData :=
  let c0 := r.connections.filter (fun c => validIds.contains c)
  let s0 := r.startConnections.filter (fun c => validIds.contains c)
  let e0 := r.endConnections.filter (fun c => validIds.contains c)
  let c1 := if c0.contains r.id then c0.erase r.id else c0
  let s1 := if s0.contains r.id then s0.erase r.id else s0
  let e1 := if e0.contains r.id then e0.erase r.id else e0
  let c2 := if c1.length > 60 then c1.take 60 else c1
  ⟨r.id, c2, s1, e1⟩

/-- 61 distinct connection ids. -/
def manyIds : List String := (List.range 61).map (fun n => "c" ++ toString n)

/-- Claim C9, counterexample.  A LineString feature whose start endpoint
has 61 valid connections satisfies `all = start ∪ end` as emitted by the
worker, but `validate_connections` truncates `connections` to 60 entries
while leaving `start_connections` untouched, so after validation the id
"c60" is in the start set but not in `all`: the well-shapedness invariant
does not survive the validation step. -/
theorem validation_truncation_breaks_union :
    (lineStringResult manyIds [] "f").1 = manyIds ∧
    "c60" ∈ (validateRow manyIds ⟨"f", manyIds, manyIds, []⟩).startConnections ∧
    "c60" ∉ (validateRow manyIds ⟨"f", manyIds, manyIds, []⟩).connections := by
  refine ⟨by decide, by decide, by decide⟩

lemma cond_erase_eq_erase (l : List String) (a : String) :
    (if l.contains a then l.erase a else l) = l.erase a := by
  by_cases h : a ∈ l
  · rw [if_pos (List.elem_iff.mpr h)]
  · rw [if_neg (fun hc => h (List.elem_iff.mp hc)), List.erase_of_not_mem h]

lemma toFinset_dedup_eq (l : List String) : l.dedup.toFinset = l.toFinset := by
  ext a
  simp [List.mem_dedup]

lemma toFinset_erase_of_nodup (l : List String) (h : l.Nodup) (a : String) :
    (l.erase a).toFinset = l.toFinset.erase a := by
  ext b
  simp [h.mem_erase_iff, Finset.mem_erase]

/-- Claim C9, amended.  The worker output is well-shaped: for LineString
features the emitted `all` list has the same members as the union of the
start and end lists, and for Point (and other non-line) features both
endpoint lists are empty.  The validation step preserves the LineString
invariant whenever the filtered connection list does not exceed 60 entries;
when it does, `connections` is truncated but the endpoint lists are not,
and the invariant can break (see the counterexample). -/
theorem worker_output_well_shaped
    (startIds endIds candidateIds : List String) (featureId : String)
    (validIds : List String) (r : RowData)
    (hnodup : r.connections.Nodup) (hs : r.startConnections.Nodup)
    (he : r.endConnections.Nodup)
    (hunion : r.connections.toFinset =
      r.startConnections.toFinset ∪ r.endConnections.toFinset)
    (hlen : ((r.connections.filter (fun c => validIds.contains c)).erase r.id).length ≤ 60) :
    (lineStringResult startIds endIds featureId).1.toFinset =
      (lineStringResult startIds endIds featureId).2.1.toFinset ∪
      (lineStringResult startIds endIds featureId).2.2.toFinset ∧
    (pointResult candidateIds featureId).2.1 = [] ∧
    (pointResult candidateIds featureId).2.2 = [] ∧
    (validateRow validIds r).connections.toFinset =
      (validateRow validIds r).startConnections.toFinset ∪
      (validateRow validIds r).endConnections.toFinset := by
  refine ⟨?_, rfl, rfl, ?_⟩
  · unfold lineStringResult
    rw [toFinset_dedup_eq, List.toFinset_append]
  · unfold validateRow
    simp only [cond_erase_eq_erase]
    rw [if_neg (by omega : ¬ ((r.connections.filter
      (fun c => validIds.contains c)).erase r.id).length > 60)]
    have hc0 : (r.connections.filter (fun c => validIds.contains c)).Nodup :=
      hnodup.filter _
    have hs0 : (r.startConnections.filter (fun c => validIds.contains c)).Nodup :=
      hs.filter _
    have he0 : (r.endConnections.filter (fun c => validIds.contains c)).Nodup :=
      he.filter _
    rw [toFinset_erase_of_nodup _ hc0, toFinset_erase_of_nodup _ hs0,
      toFinset_erase_of_nodup _ he0]
    rw [List.toFinset_filter, List.toFinset_filter, List.toFinset_filter]
    rw [hunion, Finset.filter_union, Finset.erase_union_distrib]

/-- Witness for the amended claim C9 at a small concrete instance. -/
theorem worker_output_well_shaped_witness :
    (lineStringResult ["a"] ["b"] "f").1.toFinset =
      (lineStringResult ["a"] ["b"] "f").2.1.toFinset ∪
      (lineStringResult ["a"] ["b"] "f").2.2.toFinset ∧
    (pointResult ["a"] "f").2.1 = [] ∧
    (pointResult ["a"] "f").2.2 = [] ∧
    (validateRow ["a", "b"] ⟨"f", ["a", "b"], ["a"], ["b"]⟩).connections.toFinset =
      (validateRow ["a", "b"] ⟨"f", ["a", "b"], ["a"], ["b"]⟩).startConnections.toFinset ∪
      (validateRow ["a", "b"] ⟨"f", ["a", "b"], ["a"], ["b"]⟩).endConnections.toFinset :=
  worker_output_well_shaped ["a"] ["b"] ["a"] "f" ["a", "b"]
    ⟨"f", ["a", "b"], ["a"], ["b"]⟩ (by decide) (by decide) (by decide) (by decide)
    (by decide)

end UpdateEnedisWorker


namespace NetworkPathFinder

/-- `SOURCE_SUBSTATION_LAYER` from `network_path_finder/config.py`. -/
def SOURCE_SUBSTATION_LAYER : String := "postes_source"

/-- A feature row as loaded by `load_geojson_layers`: id and the three
connection columns. -/
structure RawRow where
  id : String
  connections : List String
  startConnections : List String
  endConnections : List String
deriving DecidableEq, Repr

/-- The dynamically-typed `connections` value stored by
`build_network_lookup`: either the original list or, for one-element lists,
the bare id string. -/
inductive ConnVal
  | list : List String → ConnVal
  | str : String → ConnVal
deriving DecidableEq, Repr

/-- One entry of the `all_features` dictionary built by
`build_network_lookup` (`network_path_finder/loader.py`): the layer name,
the (possibly collapsed) connections value, and the row's endpoint
connection lists (accessed later through the stored `feature`). -/
structure NodeInfo where
  layer : String
  connections : ConnVal
  startConnections : List String
  endConnections : List String
deriving DecidableEq, Repr

/-- `if isinstance(connections, list) and len(connections) == 1:
connections = connections[0]` — a one-element list collapses to its single
element (a bare string). -/
def storedConns : List String → ConnVal
  | [x] => ConnVal.str x
  | l => ConnVal.list l

def mkNode (layerName : String) (r : RawRow) : NodeInfo :=
  ⟨layerName, storedConns r.connections, r.startConnections, r.endConnections⟩

/-- Python dict assignment on an association list: overwrite in place when
the key exists, append otherwise (insertion order preserved). -/
def upsert (l : List (String × NodeInfo)) (k : String) (v : NodeInfo) :
    List (String × NodeInfo) :=
  if l.any (fun p => decide (p.1 = k)) then
    l.map (fun p => if p.1 = k then (k, v) else p)
  else l ++ [(k, v)]

/-- The two nested loops of `build_network_lookup`
(`for layer_name, gdf in layers.items(): for idx, row in gdf.iterrows()`),
flattened into one row list tagged with its layer. -/
def allRows (layers : List (String × List RawRow)) : List (String × RawRow) :=
  layers.foldr (fun p acc => p.2.map (fun r => (p.1, r)) ++ acc) []

/-- `build_network_lookup` of `network_path_finder/loader.py`. -/
def buildNetworkLookup (layers : List (String × List RawRow)) :
    List (String × NodeInfo) :=
  (allRows layers).foldl (fun acc p => upsert acc p.2.id (mkNode p.1 p.2)) []

/-- `network_lookup[feature_id]` / `feature_id in network_lookup`. -/
def lookupNode : List (String × NodeInfo) → String → Option NodeInfo
  | [], _ => none
  | p :: l, k => if p.1 = k then some p.2 else lookupNode l k

/-- `for conn_id in current["connections"]`: a Python `for` over a list
yields its elements, but over a string yields its characters as
one-character strings. -/
def neighborsIter : ConnVal → List String
  | .list l => l
  | .str s => s.toList.map (fun c => String.mk [c])

/-- The neighbor ids the BFS loops iterate over for a node id. -/
def neighborsOf (nl : List (String × NodeInfo)) (k : String) : List String :=
  match lookupNode nl k with
  | some nd => neighborsIter nd.connections
  | none => []

/-- The expanded neighborhood built by `find_path_with_relaxed_connections`:
`set(node_data["connections"])` (characters for a collapsed string value)
extended with the row's `start_connections` and `end_connections`. -/
def expandedNeighborsOf (nl : List (String × NodeInfo)) (k : String) : List String :=
  match lookupNode nl k with
  | some nd =>
    (neighborsIter nd.connections ++ nd.startConnections ++ nd.endConnections).dedup
  | none => []

/-- `network_lookup[node_id]["layer"]`; only evaluated on ids present in
the lookup (enqueued ids are membership-guarded), the default is
unreachable. -/
def layerOf (nl : List (String × NodeInfo)) (k : String) : String :=
  match lookupNode nl k with
  | some nd => nd.layer
  | none => ""

lemma upsert_cons_eq (p : String × NodeInfo) (l : List (String × NodeInfo))
    (k : String) (v : NodeInfo) (hp : p.1 = k) :
    upsert (p :: l) k v =
      (k, v) :: l.map (fun q => if q.1 = k then (k, v) else q) := by
  unfold upsert
  simp [hp]

lemma upsert_cons_ne (p : String × NodeInfo) (l : List (String × NodeInfo))
    (k : String) (v : NodeInfo) (hp : p.1 ≠ k) :
    upsert (p :: l) k v = p :: upsert l k v := by
  unfold upsert
  by_cases h : l.any (fun q => decide (q.1 = k)) = true
  · simp [hp, h]
  · simp [hp, h]

lemma lookupNode_cons (p : String × NodeInfo) (l : List (String × NodeInfo))
    (k : String) :
    lookupNode (p :: l) k = if p.1 = k then some p.2 else lookupNode l k := rfl

lemma lookupNode_upsert_self (l : List (String × NodeInfo)) (k : String)
    (v : NodeInfo) : lookupNode (upsert l k v) k = some v := by
  induction l with
  | nil => simp [upsert, lookupNode]
  | cons p l ih =>
    by_cases hp : p.1 = k
    · rw [upsert_cons_eq p l k v hp]
      simp [lookupNode]
    · rw [upsert_cons_ne p l k v hp, lookupNode_cons, if_neg hp]
      exact ih

lemma lookupNode_map_replace_ne (l : List (String × NodeInfo)) (k k' : String)
    (v : NodeInfo) (hne : k ≠ k') :
    lookupNode (l.map (fun q => if q.1 = k then (k, v) else q)) k' =
      lookupNode l k' := by
  induction l with
  | nil => rfl
  | cons q l ih =>
    rw [List.map_cons]
    by_cases hq : q.1 = k
    · rw [if_pos hq, lookupNode_cons, lookupNode_cons]
      rw [if_neg (show ((k, v) : String × NodeInfo).1 ≠ k' from hne),
        if_neg (show q.1 ≠ k' by simp [hq, hne])]
      exact ih
    · rw [if_neg hq, lookupNode_cons, lookupNode_cons]
      by_cases hq' : q.1 = k'
      · rw [if_pos hq', if_pos hq']
      · rw [if_neg hq', if_neg hq']
        exact ih

lemma lookupNode_upsert_ne (l : List (String × NodeInfo)) (k k' : String)
    (v : NodeInfo) (hne : k ≠ k') :
    lookupNode (upsert l k v) k' = lookupNode l k' := by
  induction l with
  | nil => simp [upsert, lookupNode, hne]
  | cons p l ih =>
    by_cases hp : p.1 = k
    · rw [upsert_cons_eq p l k v hp, lookupNode_cons, lookupNode_cons]
      rw [if_neg (show ((k, v) : String × NodeInfo).1 ≠ k' from hne),
        if_neg (show p.1 ≠ k' by simp [hp, hne])]
      exact lookupNode_map_replace_ne l k k' v hne
    · rw [upsert_cons_ne p l k v hp, lookupNode_cons, lookupNode_cons]
      by_cases hp' : p.1 = k'
      · rw [if_pos hp', if_pos hp']
      · rw [if_neg hp', if_neg hp']
        exact ih

/-- The build step for a node id absent from the remaining rows leaves its
lookup entry unchanged. -/
lemma lookup_fold_not_mem (rows : List (String × RawRow))
    (acc : List (String × NodeInfo)) (k : String)
    (h : ∀ p ∈ rows, p.2.id ≠ k) :
    lookupNode (rows.foldl (fun acc p => upsert acc p.2.id (mkNode p.1 p.2)) acc) k =
      lookupNode acc k := by
  induction rows generalizing acc with
  | nil => rfl
  | cons q rows ih =>
    rw [List.foldl_cons]
    rw [ih (upsert acc q.2.id (mkNode q.1 q.2))
      (fun p hp => h p (List.mem_cons.mpr (Or.inr hp)))]
    exact lookupNode_upsert_ne acc q.2.id k (mkNode q.1 q.2)
      (h q (List.mem_cons_self q rows))

/-- When the row ids are pairwise distinct, the built lookup maps each row's
id to the node made from that row alone. -/
lemma lookup_fold_mem (rows : List (String × RawRow))
    (acc : List (String × NodeInfo)) (ln : String) (r : RawRow)
    (hnodup : (rows.map (fun p => p.2.id)).Nodup)
    (hm : (ln, r) ∈ rows) :
    lookupNode (rows.foldl (fun acc p => upsert acc p.2.id (mkNode p.1 p.2)) acc) r.id =
      some (mkNode ln r) := by
  induction rows generalizing acc with
  | nil => exact absurd hm (List.not_mem_nil _)
  | cons q rows ih =>
    rw [List.map_cons, List.nodup_cons] at hnodup
    rcases List.mem_cons.mp hm with h1 | h2
    · subst h1
      rw [List.foldl_cons]
      have hnm : ∀ p ∈ rows, p.2.id ≠ r.id := by
        intro p hp heq
        exact hnodup.1 (heq ▸ List.mem_map_of_mem (fun p => p.2.id) hp)
      rw [lookup_fold_not_mem rows _ r.id hnm]
      exact lookupNode_upsert_self acc r.id (mkNode ln r)
    · rw [List.foldl_cons]
      exact ih _ hnodup.2 h2

/-- The characterization of `build_network_lookup` on nodup ids. -/
lemma lookupNode_build (layers : List (String × List RawRow)) (ln : String)
    (r : RawRow)
    (hnodup : ((allRows layers).map (fun p => p.2.id)).Nodup)
    (hm : (ln, r) ∈ allRows layers) :
    lookupNode (buildNetworkLookup layers) r.id = some (mkNode ln r) :=
  lookup_fold_mem (allRows layers) [] ln r hnodup hm

/-- Layers exhibiting an asymmetric adjacency: `u` lists `v` and `w` as
connections, but neither lists `u` back. -/
def asymLayers : List (String × List RawRow) :=
  [("reseau_bt", [⟨"u", ["v", "w"], [], []⟩]),
   ("postes_source", [⟨"v", [], [], []⟩, ⟨"w", [], [], []⟩])]

/-- Claim C5, counterexample.  `build_network_lookup` stores each feature's
own `connections` value unchanged and nothing symmetrises afterwards (the
`validate_connections` of `connections_validation.py` only counts one-way
links into a report): in the lookup handed to the path finder, `v` is a
neighbor of `u` but `u` is not a neighbor of `v`, refuting
`v ∈ adj(u) ↔ u ∈ adj(v)`. -/
theorem lookup_adjacency_not_symmetric :
    "v" ∈ neighborsOf (buildNetworkLookup asymLayers) "u" ∧
    "u" ∉ neighborsOf (buildNetworkLookup asymLayers) "v" := by
  refine ⟨by decide, by decide⟩

/-- Claim C5, amended.  The network lookup handed to the path finder is not
symmetrised: for every feature row (under globally unique ids), the
neighbors of its id are exactly its own `connections` value as loaded —
one-element lists collapsed to the bare string and iterated per character —
and its stored layer is the layer the row came from.  Adjacency therefore
need not be symmetric (see the counterexample). -/
theorem lookup_stores_own_connections_only
    (layers : List (String × List RawRow)) (ln : String) (r : RawRow)
    (hnodup : ((allRows layers).map (fun p => p.2.id)).Nodup)
    (hm : (ln, r) ∈ allRows layers) :
    neighborsOf (buildNetworkLookup layers) r.id =
      neighborsIter (storedConns r.connections) ∧
    layerOf (buildNetworkLookup layers) r.id = ln := by
  have h := lookupNode_build layers ln r hnodup hm
  constructor
  · unfold neighborsOf
    rw [h]
    rfl
  · unfold layerOf
    rw [h]
    rfl

/-- Witness for the amended claim C5 at the concrete asymmetric layers. -/
theorem lookup_stores_own_connections_only_witness :
    neighborsOf (buildNetworkLookup asymLayers) "u" =
      neighborsIter (storedConns ["v", "w"]) ∧
    layerOf (buildNetworkLookup asymLayers) "u" = "reseau_bt" :=
  lookup_stores_own_connections_only asymLayers "reseau_bt" ⟨"u", ["v", "w"], [], []⟩
    (by decide) (by decide)

/-- Layers containing a feature whose `connections` list has exactly one
element. -/
def singletonLayers : List (String × List RawRow) :=
  [("reseau_bt", [⟨"A", ["ab"], [], []⟩])]

/-- Claim C10.  A feature whose `connections` value is a list of length
exactly one has that list replaced by its single element (the bare id
string) in the lookup, while other lengths are stored unchanged; for such a
node the BFS neighbor iteration ranges over the one-character substrings of
the id string instead of over the single neighbor id. -/
theorem singleton_connections_collapse_to_chars
    (layers : List (String × List RawRow)) (ln : String) (r : RawRow) (x : String)
    (hnodup : ((allRows layers).map (fun p => p.2.id)).Nodup)
    (hm : (ln, r) ∈ allRows layers)
    (hconn : r.connections = [x]) :
    lookupNode (buildNetworkLookup layers) r.id =
      some ⟨ln, ConnVal.str x, r.startConnections, r.endConnections⟩ ∧
    neighborsOf (buildNetworkLookup layers) r.id =
      x.toList.map (fun c => String.mk [c]) ∧
    (∀ l : List String, l.length ≠ 1 → storedConns l = ConnVal.list l) := by
  have h := lookupNode_build layers ln r hnodup hm
  have hn : mkNode ln r = ⟨ln, ConnVal.str x, r.startConnections, r.endConnections⟩ := by
    unfold mkNode
    rw [hconn]
    rfl
  refine ⟨hn ▸ h, ?_, ?_⟩
  · unfold neighborsOf
    rw [h, hn]
    rfl
  · intro l hl
    match l with
    | [] => rfl
    | [x] => exact absurd rfl hl
    | x :: y :: l => rfl

/-- Witness for claim C10 at the concrete singleton layers: the neighbors
iterated for `A` are the one-character strings of `"ab"`. -/
theorem singleton_connections_collapse_to_chars_witness :
    lookupNode (buildNetworkLookup singletonLayers) "A" =
      some ⟨"reseau_bt", ConnVal.str "ab", [], []⟩ ∧
    neighborsOf (buildNetworkLookup singletonLayers) "A" =
      "ab".toList.map (fun c => String.mk [c]) ∧
    (∀ l : List String, l.length ≠ 1 → storedConns l = ConnVal.list l) :=
  singleton_connections_collapse_to_chars singletonLayers "reseau_bt"
    ⟨"A", ["ab"], [], []⟩ "ab" (by decide) (by decide) (by decide)

/-- The enqueue loop shared by the BFS functions of
`network_path_finder/pathfinding.py`:
`for conn_id in ...: if conn_id in network_lookup and conn_id not in
visited: visited.add(conn_id); queue.append((conn_id, path + [conn_id]))`.
The state is (queue, visited). -/
def enqueueAll (nl : List (String × NodeInfo)) (conns : List String)
    (path : List String) (qv : List (String × List String) × List String) :
    List (String × List String) × List String :=
  conns.foldl (fun qv c =>
    if (lookupNode nl c).isSome ∧ c ∉ qv.2 then
      (qv.1 ++ [(c, path ++ [c])], c :: qv.2)
    else qv) qv

/-- The `while queue:` loop of `find_path_to_source` (and, with the
expanded neighbor function, of `find_path_with_relaxed_connections`):
dequeue, return the layer-annotated path when the dequeued node's layer is
the source-substation layer, else enqueue its unvisited neighbors.  The
Python loop needs no fuel (each node is enqueued at most once); the fuel
argument only bounds the iteration count and is chosen large enough. -/
def bfsToLayer (nl : List (String × NodeInfo)) (nbrs : String → List String) :
    ℕ → List (String × List String) → List String → Option (List (String × String))
  | 0, _, _ => none
  | _ + 1, [], _ => none
  | fuel + 1, (cur, path) :: rest, visited =>
    match lookupNode nl cur with
    | none => bfsToLayer nl nbrs fuel rest visited
    | some nd =>
      if nd.layer = SOURCE_SUBSTATION_LAYER then
        some (path.map (fun id => (layerOf nl id, id)))
      else
        let qv := enqueueAll nl (nbrs cur) path (rest, visited)
        bfsToLayer nl nbrs fuel qv.1 qv.2

/-- The `while queue:` loop of `find_path_to_node`: as above but stopping
when the dequeued id equals the target. -/
def bfsToNode (nl : List (String × NodeInfo)) (target : String) :
    ℕ → List (String × List String) → List String → Option (List (String × String))
  | 0, _, _ => none
  | _ + 1, [], _ => none
  | fuel + 1, (cur, path) :: rest, visited =>
    if cur = target then some (path.map (fun id => (layerOf nl id, id)))
    else
      match lookupNode nl cur with
      | none => bfsToNode nl target fuel rest visited
      | some nd =>
        let qv := enqueueAll nl (neighborsIter nd.connections) path (rest, visited)
        bfsToNode nl target fuel qv.1 qv.2

/-- An upper bound on the number of dequeues: at most one enqueue per
lookup entry plus the initial entry. -/
def bfsFuel (nl : List (String × NodeInfo)) : ℕ := nl.length + 2

/-- `find_path_to_source` of `network_path_finder/pathfinding.py` (the
`start_layer` argument is received but never read). -/
def findPathToSource (startLayer startId : String)
    (nl : List (String × NodeInfo)) : Option (List (String × String)) :=
  if (lookupNode nl startId).isSome then
    bfsToLayer nl (neighborsOf nl) (bfsFuel nl) [(startId, [startId])] [startId]
  else none

/-- `find_path_from_node_to_source`: textually the same search as
`find_path_to_source` without the unused layer argument. -/
def findPathFromNodeToSource (startId : String) (nl : List (String × NodeInfo)) :
    Option (List (String × String)) :=
  if (lookupNode nl startId).isSome then
    bfsToLayer nl (neighborsOf nl) (bfsFuel nl) [(startId, [startId])] [startId]
  else none

/-- `find_path_with_relaxed_connections`: the same search over the expanded
network whose neighborhoods add `start_connections` and `end_connections`. -/
def findPathWithRelaxed (startLayer startId : String)
    (nl : List (String × NodeInfo)) : Option (List (String × String)) :=
  if (lookupNode nl startId).isSome then
    bfsToLayer nl (expandedNeighborsOf nl) (bfsFuel nl) [(startId, [startId])] [startId]
  else none

/-- `find_path_to_node`. -/
def findPathToNode (startId targetId : String) (nl : List (String × NodeInfo)) :
    Option (List (String × String)) :=
  if (lookupNode nl startId).isSome then
    bfsToNode nl targetId (bfsFuel nl) [(startId, [startId])] [startId]
  else none

/-- `NetworkBridger._get_connected_component`: BFS collecting every node
reachable along stored connections, membership-guarded on the lookup. -/
def gccStep (nl : List (String × NodeInfo)) :
    ℕ → List String → List String → List String
  | 0, _, comp => comp
  | _ + 1, [], comp => comp
  | fuel + 1, cur :: rest, comp =>
    match lookupNode nl cur with
    | none => gccStep nl fuel rest comp
    | some nd =>
      let qc := (neighborsIter nd.connections).foldl (fun qc c =>
        if (lookupNode nl c).isSome ∧ c ∉ qc.2 then (qc.1 ++ [c], qc.2 ++ [c])
        else qc) (rest, comp)
      gccStep nl fuel qc.1 qc.2

def getConnectedComponent (nl : List (String × NodeInfo)) (startId : String) :
    List String :=
  gccStep nl (bfsFuel nl) [startId] [startId]

/-- Python dict assignment for the component mapping. -/
def upsertIdx (l : List (String × ℕ)) (k : String) (v : ℕ) : List (String × ℕ) :=
  if l.any (fun p => decide (p.1 = k)) then
    l.map (fun p => if p.1 = k then (k, v) else p)
  else l ++ [(k, v)]

/-- `NetworkBridger.build_components`: the `visited` set of the source is
never updated inside the loop, so every node id starts a fresh component;
`component_mapping[n]` is overwritten by later components.  Returns the
components dict (as an association list indexed by component id) and the
node-to-component mapping. -/
def buildComponents (nl : List (String × NodeInfo)) :
    List (ℕ × List String) × List (String × ℕ) :=
  let res := (nl.map Prod.fst).foldl
    (fun (acc : List (ℕ × List String) × List (String × ℕ) × ℕ) nid =>
      let comp := getConnectedComponent nl nid
      (acc.1 ++ [(acc.2.2, comp)],
       (comp.foldl (fun m n => upsertIdx m n acc.2.2) acc.2.1, acc.2.2 + 1)))
    ([], ([], 0))
  (res.1, res.2.1)

def assocFindIdx (l : List (String × ℕ)) (k : String) : Option ℕ :=
  (l.find? (fun p => decide (p.1 = k))).map (·.2)

/-- `NetworkBridger.find_closest_elements_between_components`: geometries
are collected per id (an id in both components goes to the first only,
because of the `elif`), then the strictly-closest pair wins, subject to the
distance cap.  The geometry distance comes from shapely and is abstracted
by the `dist` argument. -/
def closestBetween (layers : List (String × List RawRow))
    (dist : String → String → ℚ) (comp1 comp2 : List String)
    (maxDistance : ℚ) : Option (String × String × ℚ) :=
  let ids := ((allRows layers).map (fun p => p.2.id)).dedup
  let c1 := ids.filter (fun i => decide (i ∈ comp1))
  let c2 := ids.filter (fun i => decide (i ∉ comp1) && decide (i ∈ comp2))
  let best := c1.foldl (fun acc i =>
    c2.foldl (fun acc j =>
      match acc with
      | none => some (i, j, dist i j)
      | some (_, _, bd) => if dist i j < bd then some (i, j, dist i j) else acc)
      acc) none
  match best with
  | none => none
  | some (i, j, d) => if d ≤ maxDistance then some (i, j, d) else none

/-- The bridge loop of `find_path_with_bridging`: for each component that
contains a source substation (other than the start component), find the
closest pair within 2000 m and splice
`path_to_bridge1[:-1] + [bridge1] + [bridge marker] + [bridge2] +
path_from_bridge2[1:]`. -/
def tryBridges (nl : List (String × NodeInfo)) (layers : List (String × List RawRow))
    (dist : String → String → ℚ) (startId : String)
    (startComponent : List String) (components : List (ℕ × List String))
    (startCompId : ℕ) : List ℕ → Option (List (String × String))
  | [] => none
  | compId :: rest =>
    if compId = startCompId then
      tryBridges nl layers dist startId startComponent components startCompId rest
    else
      let sourceComponent :=
        match components.find? (fun p => decide (p.1 = compId)) with
        | some p => p.2
        | none => []
      match closestBetween layers dist startComponent sourceComponent 2000 with
      | none => tryBridges nl layers dist startId startComponent components startCompId rest
      | some (b1, b2, _) =>
        match findPathToNode startId b1 nl, findPathFromNodeToSource b2 nl with
        | some p1, some p2 =>
          some (p1.dropLast ++ [(layerOf nl b1, b1)] ++
            [("bridge", b1 ++ "->" ++ b2)] ++ [(layerOf nl b2, b2)] ++ p2.drop 1)
        | _, _ =>
          tryBridges nl layers dist startId startComponent components startCompId rest

/-- `find_path_with_bridging`: direct search first, then component
bridging towards components containing source substations. -/
def findPathWithBridging (startLayer startId : String)
    (nl : List (String × NodeInfo)) (layers : List (String × List RawRow))
    (dist : String → String → ℚ) : Option (List (String × String)) :=
  match findPathToSource startLayer startId nl with
  | some p => some p
  | none =>
    let cm := buildComponents nl
    match assocFindIdx cm.2 startId with
    | none => none
    | some startCompId =>
      let startComponent :=
        match cm.1.find? (fun p => decide (p.1 = startCompId)) with
        | some p => p.2
        | none => []
      let sourceComponents := (cm.1.filter (fun p =>
        p.2.any (fun n =>
          match lookupNode nl n with
          | some nd => decide (nd.layer = SOURCE_SUBSTATION_LAYER)
          | none => false))).map Prod.fst
      if sourceComponents.isEmpty then none
      else tryBridges nl layers dist startId startComponent cm.1 startCompId
        sourceComponents

/-- The `for hop in range(max_hops)` loop of `find_path_with_multiple_hops`,
carrying the accumulated `full_path` and the current node; exhaustion of
the loop or a failed bridge returns `None` and drops the partial path. -/
def multiHopLoop (nl : List (String × NodeInfo))
    (layers : List (String × List RawRow)) (dist : String → String → ℚ) :
    ℕ → String → List (String × String) → Option (List (String × String))
  | 0, _, _ => none
  | hops + 1, cur, acc =>
    match findPathFromNodeToSource cur nl with
    | some p => some (acc ++ p.drop 1)
    | none =>
      let comp := getConnectedComponent nl cur
      let others := (nl.map Prod.fst).filter (fun n => decide (n ∉ comp))
      if others.isEmpty then none
      else
        match closestBetween layers dist [cur] others 5000 with
        | none => none
        | some (_, next, _) =>
          multiHopLoop nl layers dist hops next
            (acc ++ [("bridge", cur ++ "->" ++ next), (layerOf nl next, next)])

/-- `find_path_with_multiple_hops` with its default `max_hops = 3`. -/
def findPathWithMultipleHops (startLayer startId : String)
    (nl : List (String × NodeInfo)) (layers : List (String × List RawRow))
    (dist : String → String → ℚ) (maxHops : ℕ) : Option (List (String × String)) :=
  multiHopLoop nl layers dist maxHops startId [(startLayer, startId)]

/-- `find_path_with_fallbacks`: the four strategies in order, first success
wins. -/
def findPathWithFallbacks (startLayer startId : String)
    (nl : List (String × NodeInfo)) (layers : List (String × List RawRow))
    (dist : String → String → ℚ) : Option (List (String × String)) :=
  match findPathToSource startLayer startId nl with
  | some p => some p
  | none =>
    match findPathWithRelaxed startLayer startId nl with
    | some p => some p
    | none =>
      match findPathWithBridging startLayer startId nl layers dist with
      | some p => some p
      | none => findPathWithMultipleHops startLayer startId nl layers dist 3

lemma getLast?_map {α β : Type} (f : α → β) (l : List α) :
    (l.map f).getLast? = l.getLast?.map f := by
  induction l with
  | nil => rfl
  | cons a l ih =>
    cases l with
    | nil => rfl
    | cons b l => simpa using ih

lemma head?_append_of_ne_nil {α : Type} (l l' : List α) (h : l ≠ []) :
    (l ++ l').head? = l.head? := by
  cases l with
  | nil => exact absurd rfl h
  | cons a l => rfl

lemma nodup_snoc {α : Type} [DecidableEq α] (l : List α) (c : α)
    (h1 : l.Nodup) (h2 : c ∉ l) : (l ++ [c]).Nodup := by
  rw [List.nodup_append]
  exact ⟨h1, List.nodup_singleton c, fun x hx hxc => by
    rw [List.mem_singleton] at hxc
    exact h2 (hxc ▸ hx)⟩

/-- Invariant of one queue entry of the BFS loops: a nonempty simple path
from the start to the entry's node, chained along the neighbor function,
fully visited and fully inside the lookup. -/
def QEntryOk (nl : List (String × NodeInfo)) (nbrs : String → List String)
    (start : String) (visited : List String) (e : String × List String) : Prop :=
  e.2 ≠ [] ∧ e.2.head? = some start ∧ e.2.getLast? = some e.1 ∧
  List.Chain' (fun a b => b ∈ nbrs a) e.2 ∧ e.2.Nodup ∧
  (∀ x ∈ e.2, x ∈ visited) ∧ (∀ x ∈ e.2, (lookupNode nl x).isSome = true)

/-- What the source-layer BFS guarantees about a returned path. -/
def GoodPath (nl : List (String × NodeInfo)) (nbrs : String → List String)
    (start : String) (p : List (String × String)) : Prop :=
  p ≠ [] ∧
  (p.map Prod.snd).head? = some start ∧
  List.Chain' (fun a b => b ∈ nbrs a) (p.map Prod.snd) ∧
  (p.map Prod.snd).Nodup ∧
  (∀ e ∈ p, e.1 = layerOf nl e.2 ∧ (lookupNode nl e.2).isSome = true) ∧
  (∃ e, p.getLast? = some e ∧ e.1 = SOURCE_SUBSTATION_LAYER)

/-- What the target-node BFS guarantees about a returned path. -/
def GoodPathTo (nl : List (String × NodeInfo)) (start target : String)
    (p : List (String × String)) : Prop :=
  p ≠ [] ∧
  (p.map Prod.snd).head? = some start ∧
  List.Chain' (fun a b => b ∈ neighborsOf nl a) (p.map Prod.snd) ∧
  (p.map Prod.snd).Nodup ∧
  (∀ e ∈ p, e.1 = layerOf nl e.2 ∧ (lookupNode nl e.2).isSome = true) ∧
  (p.map Prod.snd).getLast? = some target

lemma enqueueAll_cons (nl : List (String × NodeInfo)) (c : String)
    (conns : List String) (path : List String)
    (qv : List (String × List String) × List String) :
    enqueueAll nl (c :: conns) path qv =
      enqueueAll nl conns path
        (if (lookupNode nl c).isSome ∧ c ∉ qv.2 then
          (qv.1 ++ [(c, path ++ [c])], c :: qv.2)
        else qv) := rfl

lemma enqueueAll_visited_mono (nl : List (String × NodeInfo))
    (conns : List String) (path : List String)
    (qv : List (String × List String) × List String) :
    ∀ x ∈ qv.2, x ∈ (enqueueAll nl conns path qv).2 := by
  induction conns generalizing qv with
  | nil => intro x hx; exact hx
  | cons c conns ih =>
    intro x hx
    rw [enqueueAll_cons]
    by_cases hc : (lookupNode nl c).isSome ∧ c ∉ qv.2
    · rw [if_pos hc]
      exact ih _ x (List.mem_cons.mpr (Or.inr hx))
    · rw [if_neg hc]
      exact ih qv x hx

lemma enqueueAll_queue_mem (nl : List (String × NodeInfo))
    (conns : List String) (path : List String)
    (qv : List (String × List String) × List String) :
    ∀ e ∈ (enqueueAll nl conns path qv).1,
      e ∈ qv.1 ∨ ∃ c, e = (c, path ++ [c]) ∧ c ∈ conns ∧
        (lookupNode nl c).isSome = true ∧ c ∉ qv.2 ∧
        c ∈ (enqueueAll nl conns path qv).2 := by
  induction conns generalizing qv with
  | nil => intro e he; exact Or.inl he
  | cons c conns ih =>
    intro e he
    rw [enqueueAll_cons] at he ⊢
    by_cases hc : (lookupNode nl c).isSome ∧ c ∉ qv.2
    · rw [if_pos hc] at he ⊢
      rcases ih _ e he with h1 | h2
      · rcases List.mem_append.mp h1 with h3 | h4
        · exact Or.inl h3
        · rw [List.mem_singleton] at h4
          refine Or.inr ⟨c, h4, List.mem_cons_self c conns, hc.1, hc.2, ?_⟩
          exact enqueueAll_visited_mono nl conns path _ c (List.mem_cons_self c qv.2)
      · rcases h2 with ⟨c', he', hm', hs', hnv', hv'⟩
        refine Or.inr ⟨c', he', List.mem_cons.mpr (Or.inr hm'), hs', ?_, hv'⟩
        intro hcon
        exact hnv' (List.mem_cons.mpr (Or.inr hcon))
    · rw [if_neg hc] at he ⊢
      rcases ih qv e he with h1 | h2
      · exact Or.inl h1
      · rcases h2 with ⟨c', he', hm', hs', hnv', hv'⟩
        exact Or.inr ⟨c', he', List.mem_cons.mpr (Or.inr hm'), hs', hnv', hv'⟩

/-- Re-establishing the queue invariant after one expansion step. -/
lemma enqueueAll_preserves_inv (nl : List (String × NodeInfo))
    (nbrs : String → List String) (start cur : String) (path : List String)
    (rest : List (String × List String)) (visited : List String)
    (hcur : QEntryOk nl nbrs start visited (cur, path))
    (hrest : ∀ e ∈ rest, QEntryOk nl nbrs start visited e) :
    ∀ e ∈ (enqueueAll nl (nbrs cur) path (rest, visited)).1,
      QEntryOk nl nbrs start (enqueueAll nl (nbrs cur) path (rest, visited)).2 e := by
  obtain ⟨hne, hhd, hlst, hch, hnd, hvis, hlk⟩ := hcur
  intro e he
  rcases enqueueAll_queue_mem nl (nbrs cur) path (rest, visited) e he with h1 | h2
  · obtain ⟨hne', hhd', hlst', hch', hnd', hvis', hlk'⟩ := hrest e h1
    exact ⟨hne', hhd', hlst', hch', hnd', fun x hx =>
      enqueueAll_visited_mono nl (nbrs cur) path (rest, visited) x (hvis' x hx), hlk'⟩
  · obtain ⟨c, hec, hcm, hcs, hcnv, hcv⟩ := h2
    rw [hec]
    refine ⟨by simp, ?_, ?_, ?_, ?_, ?_, ?_⟩
    · rw [head?_append_of_ne_nil path [c] hne]
      exact hhd
    · exact List.getLast?_concat path
    · rw [List.chain'_append]
      refine ⟨hch, List.chain'_singleton c, ?_⟩
      intro x hx y hy
      rw [hlst] at hx
      rw [Option.mem_def, Option.some.injEq] at hx
      simp only [List.head?_cons, Option.mem_def, Option.some.injEq] at hy
      rw [← hx, ← hy]
      exact hcm
    · exact nodup_snoc path c hnd (fun hcp => hcnv (hvis c hcp))
    · intro x hx
      rcases List.mem_append.mp hx with hx1 | hx2
      · exact enqueueAll_visited_mono nl (nbrs cur) path (rest, visited) x (hvis x hx1)
      · rw [List.mem_singleton] at hx2
        exact hx2 ▸ hcv
    · intro x hx
      rcases List.mem_append.mp hx with hx1 | hx2
      · exact hlk x hx1
      · rw [List.mem_singleton] at hx2
        exact hx2 ▸ hcs

/-- Partial correctness of the source-layer BFS: whatever path it returns
is a good path. -/
lemma bfsToLayer_spec (nl : List (String × NodeInfo))
    (nbrs : String → List String) (start : String) :
    ∀ fuel (q : List (String × List String)) (visited : List String),
      (∀ e ∈ q, QEntryOk nl nbrs start visited e) →
      ∀ p, bfsToLayer nl nbrs fuel q visited = some p →
        GoodPath nl nbrs start p := by
  intro fuel
  induction fuel with
  | zero =>
    intro q visited _ p h
    simp [bfsToLayer] at h
  | succ fuel ih =>
    intro q visited hq p h
    cases q with
    | nil => simp [bfsToLayer] at h
    | cons ent rest =>
      obtain ⟨cur, path⟩ := ent
      obtain ⟨hne, hhd, hlst, hch, hnd, hvis, hlk⟩ := hq (cur, path) (List.mem_cons_self _ _)
      cases hl : lookupNode nl cur with
      | none =>
        simp only [bfsToLayer, hl] at h
        exact ih rest visited (fun e he => hq e (List.mem_cons.mpr (Or.inr he))) p h
      | some nd =>
        simp only [bfsToLayer, hl] at h
        by_cases hs : nd.layer = SOURCE_SUBSTATION_LAYER
        · rw [if_pos hs] at h
          rw [Option.some.injEq] at h
          subst h
          have hmap : (path.map (fun id => (layerOf nl id, id))).map Prod.snd = path := by
            rw [List.map_map]
            show path.map (fun id => id) = path
            exact List.map_id path
          refine ⟨?_, ?_, ?_, ?_, ?_, ?_⟩
          · intro hcon
            rw [List.map_eq_nil_iff] at hcon
            exact hne hcon
          · rw [hmap]; exact hhd
          · rw [hmap]; exact hch
          · rw [hmap]; exact hnd
          · intro e hme
            rw [List.mem_map] at hme
            obtain ⟨id, hid, rfl⟩ := hme
            exact ⟨rfl, hlk id hid⟩
          · rw [getLast?_map]
            rw [hlst]
            refine ⟨(layerOf nl cur, cur), rfl, ?_⟩
            show layerOf nl cur = SOURCE_SUBSTATION_LAYER
            unfold layerOf
            rw [hl]
            exact hs
        · rw [if_neg hs] at h
          exact ih _ _ (enqueueAll_preserves_inv nl nbrs start cur path rest visited
            ⟨hne, hhd, hlst, hch, hnd, hvis, hlk⟩
            (fun e he => hq e (List.mem_cons.mpr (Or.inr he)))) p h

/-- Partial correctness of the target-node BFS. -/
lemma bfsToNode_spec (nl : List (String × NodeInfo)) (target start : String) :
    ∀ fuel (q : List (String × List String)) (visited : List String),
      (∀ e ∈ q, QEntryOk nl (neighborsOf nl) start visited e) →
      ∀ p, bfsToNode nl target fuel q visited = some p →
        GoodPathTo nl start target p := by
  intro fuel
  induction fuel with
  | zero =>
    intro q visited _ p h
    simp [bfsToNode] at h
  | succ fuel ih =>
    intro q visited hq p h
    cases q with
    | nil => simp [bfsToNode] at h
    | cons ent rest =>
      obtain ⟨cur, path⟩ := ent
      obtain ⟨hne, hhd, hlst, hch, hnd, hvis, hlk⟩ := hq (cur, path) (List.mem_cons_self _ _)
      by_cases ht : cur = target
      · simp only [bfsToNode, ht, if_pos] at h
        rw [Option.some.injEq] at h
        subst h
        have hmap : (path.map (fun id => (layerOf nl id, id))).map Prod.snd = path := by
          rw [List.map_map]
          show path.map (fun id => id) = path
          exact List.map_id path
        refine ⟨?_, ?_, ?_, ?_, ?_, ?_⟩
        · intro hcon
          rw [List.map_eq_nil_iff] at hcon
          exact hne hcon
        · rw [hmap]; exact hhd
        · rw [hmap]; exact hch
        · rw [hmap]; exact hnd
        · intro e hme
          rw [List.mem_map] at hme
          obtain ⟨id, hid, rfl⟩ := hme
          exact ⟨rfl, hlk id hid⟩
        · rw [hmap, hlst, ht]
      · simp only [bfsToNode, ht, if_neg, not_false_eq_true] at h
        cases hl : lookupNode nl cur with
        | none =>
          simp only [hl] at h
          exact ih rest visited (fun e he => hq e (List.mem_cons.mpr (Or.inr he))) p h
        | some nd =>
          simp only [hl] at h
          have hnb : neighborsIter nd.connections = neighborsOf nl cur := by
            unfold neighborsOf
            rw [hl]
          rw [hnb] at h
          exact ih _ _ (enqueueAll_preserves_inv nl (neighborsOf nl) start cur path
            rest visited ⟨hne, hhd, hlst, hch, hnd, hvis, hlk⟩
            (fun e he => hq e (List.mem_cons.mpr (Or.inr he)))) p h

/-- The singleton initial queue satisfies the invariant. -/
lemma initial_inv (nl : List (String × NodeInfo)) (nbrs : String → List String)
    (startId : String) (hs : (lookupNode nl startId).isSome = true) :
    ∀ e ∈ [(startId, [startId])],
      QEntryOk nl nbrs startId [startId] e := by
  intro e he
  rw [List.mem_singleton] at he
  subst he
  refine ⟨by simp, rfl, rfl, List.chain'_singleton startId, List.nodup_singleton startId,
    ?_, ?_⟩
  · intro x hx
    exact hx
  · intro x hx
    rw [List.mem_singleton] at hx
    exact hx ▸ hs

lemma findPathToSource_spec (startLayer startId : String)
    (nl : List (String × NodeInfo)) (p : List (String × String))
    (h : findPathToSource startLayer startId nl = some p) :
    GoodPath nl (neighborsOf nl) startId p := by
  unfold findPathToSource at h
  by_cases hs : (lookupNode nl startId).isSome = true
  · rw [if_pos hs] at h
    exact bfsToLayer_spec nl (neighborsOf nl) startId (bfsFuel nl) _ _
      (initial_inv nl (neighborsOf nl) startId hs) p h
  · rw [if_neg hs] at h
    exact absurd h (by simp)

lemma findPathFromNodeToSource_spec (startId : String)
    (nl : List (String × NodeInfo)) (p : List (String × String))
    (h : findPathFromNodeToSource startId nl = some p) :
    GoodPath nl (neighborsOf nl) startId p := by
  unfold findPathFromNodeToSource at h
  by_cases hs : (lookupNode nl startId).isSome = true
  · rw [if_pos hs] at h
    exact bfsToLayer_spec nl (neighborsOf nl) startId (bfsFuel nl) _ _
      (initial_inv nl (neighborsOf nl) startId hs) p h
  · rw [if_neg hs] at h
    exact absurd h (by simp)

lemma findPathWithRelaxed_spec (startLayer startId : String)
    (nl : List (String × NodeInfo)) (p : List (String × String))
    (h : findPathWithRelaxed startLayer startId nl = some p) :
    GoodPath nl (expandedNeighborsOf nl) startId p := by
  unfold findPathWithRelaxed at h
  by_cases hs : (lookupNode nl startId).isSome = true
  · rw [if_pos hs] at h
    exact bfsToLayer_spec nl (expandedNeighborsOf nl) startId (bfsFuel nl) _ _
      (initial_inv nl (expandedNeighborsOf nl) startId hs) p h
  · rw [if_neg hs] at h
    exact absurd h (by simp)

lemma findPathToNode_spec (startId targetId : String)
    (nl : List (String × NodeInfo)) (p : List (String × String))
    (h : findPathToNode startId targetId nl = some p) :
    GoodPathTo nl startId targetId p := by
  unfold findPathToNode at h
  by_cases hs : (lookupNode nl startId).isSome = true
  · rw [if_pos hs] at h
    exact bfsToNode_spec nl targetId startId (bfsFuel nl) _ _
      (initial_inv nl (neighborsOf nl) startId hs) p h
  · rw [if_neg hs] at h
    exact absurd h (by simp)

/-- The maximal bridge-free segments of a returned path: splitting at
entries labeled `"bridge"` (the synthetic markers inserted by the bridging
strategies). -/
def segs : List (String × String) → List (List (String × String))
  | [] => [[]]
  | e :: t =>
    if e.1 = "bridge" then [] :: segs t
    else
      match segs t with
      | [] => [[e]]
      | s :: ss => (e :: s) :: ss

lemma segs_ne_nil (l : List (String × String)) : segs l ≠ [] := by
  cases l with
  | nil => simp [segs]
  | cons e t =>
    simp only [segs]
    by_cases hb : e.1 = "bridge"
    · simp [hb]
    · rw [if_neg hb]
      cases segs t <;> simp

lemma segs_cons_bridge (e : String × String) (t : List (String × String))
    (hb : e.1 = "bridge") : segs (e :: t) = [] :: segs t := by
  simp only [segs]
  rw [if_pos hb]

lemma segs_cons_not_bridge (e : String × String) (t : List (String × String))
    (s : List (String × String)) (ss : List (List (String × String)))
    (hb : e.1 ≠ "bridge") (hst : segs t = s :: ss) :
    segs (e :: t) = (e :: s) :: ss := by
  simp only [segs]
  rw [if_neg hb, hst]

lemma segs_append_bridge (xs ys : List (String × String)) (lbl : String) :
    segs (xs ++ ("bridge", lbl) :: ys) = segs xs ++ segs ys := by
  induction xs with
  | nil =>
    rw [List.nil_append, segs_cons_bridge ("bridge", lbl) ys rfl]
    rfl
  | cons e xs ih =>
    rw [List.cons_append]
    by_cases hb : e.1 = "bridge"
    · rw [segs_cons_bridge e _ hb, ih, segs_cons_bridge e xs hb]
      rfl
    · cases hsx : segs xs with
      | nil => exact absurd hsx (segs_ne_nil xs)
      | cons s ss =>
        have h1 : segs (xs ++ ("bridge", lbl) :: ys) = s :: (ss ++ segs ys) := by
          rw [ih, hsx]
          rfl
        rw [segs_cons_not_bridge e _ s (ss ++ segs ys) hb h1,
          segs_cons_not_bridge e xs s ss hb hsx]
        rfl

lemma segs_sublist (l : List (String × String)) :
    ∀ s ∈ segs l, s.Sublist l := by
  induction l with
  | nil =>
    intro s hs
    rw [segs] at hs
    rw [List.mem_singleton] at hs
    simp [hs]
  | cons e t ih =>
    intro s hs
    by_cases hb : e.1 = "bridge"
    · rw [segs_cons_bridge e t hb] at hs
      rcases List.mem_cons.mp hs with h1 | h2
      · simp [h1]
      · exact (ih s h2).cons e
    · cases hst : segs t with
      | nil => exact absurd hst (segs_ne_nil t)
      | cons s0 ss =>
        rw [segs_cons_not_bridge e t s0 ss hb hst] at hs
        rcases List.mem_cons.mp hs with h1 | h2
        · rw [h1]
          exact (ih s0 (hst ▸ List.mem_cons_self s0 ss)).cons₂ e
        · exact (ih s (hst ▸ List.mem_cons.mpr (Or.inr h2))).cons e

/-- One step of a valid returned path: either endpoint is a bridge marker,
or the target id is among the (endpoint-augmented) neighbors of the source
id. -/
def entryStepOk (nl : List (String × NodeInfo)) (e1 e2 : String × String) : Prop :=
  e1.1 = "bridge" ∨ e2.1 = "bridge" ∨ e2.2 ∈ expandedNeighborsOf nl e1.2

/-- The amended path invariants: non-empty, ends at the source-substation
layer, consecutive entries are bridge-separated or adjacent in the
endpoint-augmented lookup, and no id repeats inside a bridge-free
segment. -/
def pathOk (nl : List (String × NodeInfo)) (p : List (String × String)) : Prop :=
  p ≠ [] ∧
  (∃ e, p.getLast? = some e ∧ e.1 = SOURCE_SUBSTATION_LAYER) ∧
  List.Chain' (entryStepOk nl) p ∧
  ∀ s ∈ segs p, (s.map Prod.snd).Nodup

lemma mem_expanded_of_mem_neighbors (nl : List (String × NodeInfo))
    (a b : String) (h : b ∈ neighborsOf nl a) : b ∈ expandedNeighborsOf nl a := by
  unfold neighborsOf at h
  unfold expandedNeighborsOf
  cases hl : lookupNode nl a with
  | none =>
    rw [hl] at h
    exact absurd h (List.not_mem_nil b)
  | some nd =>
    rw [hl] at h
    rw [List.mem_dedup, List.append_assoc, List.mem_append]
    exact Or.inl h

lemma chain_entry_of_chain_ids (nl : List (String × NodeInfo))
    (nbrs : String → List String) (p : List (String × String))
    (hsub : ∀ a b, b ∈ nbrs a → b ∈ expandedNeighborsOf nl a)
    (hch : List.Chain' (fun a b => b ∈ nbrs a) (p.map Prod.snd)) :
    List.Chain' (entryStepOk nl) p := by
  rw [List.chain'_map] at hch
  exact hch.imp (fun e1 e2 h => Or.inr (Or.inr (hsub e1.2 e2.2 h)))

lemma segs_nodup_of_nodup (p : List (String × String))
    (h : (p.map Prod.snd).Nodup) :
    ∀ s ∈ segs p, (s.map Prod.snd).Nodup := by
  intro s hs
  exact List.Nodup.sublist ((segs_sublist p s hs).map Prod.snd) h

/-- Paths returned by the source-layer BFS satisfy the amended path
invariants. -/
lemma goodPath_pathOk (nl : List (String × NodeInfo))
    (nbrs : String → List String) (start : String) (p : List (String × String))
    (hsub : ∀ a b, b ∈ nbrs a → b ∈ expandedNeighborsOf nl a)
    (hg : GoodPath nl nbrs start p) : pathOk nl p := by
  obtain ⟨hne, _, hch, hnd, _, hlast⟩ := hg
  exact ⟨hne, hlast, chain_entry_of_chain_ids nl nbrs p hsub hch,
    segs_nodup_of_nodup p hnd⟩

lemma mem_of_getLast? {α : Type} {l : List α} {a : α}
    (h : l.getLast? = some a) : a ∈ l := by
  induction l with
  | nil => simp at h
  | cons b l ih =>
    cases l with
    | nil =>
      simp at h
      simp [h]
    | cons c l =>
      rw [List.getLast?_cons_cons] at h
      exact List.mem_cons.mpr (Or.inr (ih h))

lemma dropLast_append_of_getLast? {α : Type} {l : List α} {a : α}
    (h : l.getLast? = some a) : l.dropLast ++ [a] = l := by
  induction l with
  | nil => simp at h
  | cons b l ih =>
    cases l with
    | nil =>
      simp at h
      simp [h]
    | cons c l =>
      rw [List.getLast?_cons_cons] at h
      rw [List.dropLast_cons₂, List.cons_append, ih h]

lemma cons_drop_one_of_head? {α : Type} {l : List α} {a : α}
    (h : l.head? = some a) : a :: l.drop 1 = l := by
  cases l with
  | nil => simp at h
  | cons b l =>
    rw [List.head?_cons, Option.some.injEq] at h
    rw [h]
    rfl

lemma getLast?_append_right {α : Type} (l l' : List α) (h : l' ≠ []) :
    (l ++ l').getLast? = l'.getLast? := by
  induction l with
  | nil => rfl
  | cons b l ih =>
    rw [List.cons_append]
    cases hl : l ++ l' with
    | nil =>
      rcases List.append_eq_nil.mp hl with ⟨_, h2⟩
      exact absurd h2 h
    | cons c t =>
      rw [List.getLast?_cons_cons, ← hl, ih]

lemma head?_map {α β : Type} (f : α → β) (l : List α) :
    (l.map f).head? = l.head?.map f := by
  cases l <;> rfl

/-- The last entry of a target-node BFS path is the target with its lookup
layer. -/
lemma goodPathTo_last_entry (nl : List (String × NodeInfo))
    (start target : String) (p : List (String × String))
    (hg : GoodPathTo nl start target p) :
    p.getLast? = some (layerOf nl target, target) := by
  obtain ⟨hne, _, _, _, hent, hlast⟩ := hg
  rw [getLast?_map] at hlast
  cases hp : p.getLast? with
  | none =>
    rw [hp] at hlast
    simp at hlast
  | some e =>
    rw [hp] at hlast
    simp only [Option.map_some', Option.some.injEq] at hlast
    obtain ⟨he1, _⟩ := hent e (mem_of_getLast? hp)
    have : e = (layerOf nl target, target) := by
      cases e with
      | mk l i =>
        simp only at hlast
        rw [Prod.mk.injEq]
        subst hlast
        exact ⟨he1, rfl⟩
    rw [this]

/-- The head entry of a source-layer BFS path is the start with its lookup
layer. -/
lemma goodPath_head_entry (nl : List (String × NodeInfo))
    (nbrs : String → List String) (start : String) (p : List (String × String))
    (hg : GoodPath nl nbrs start p) :
    p.head? = some (layerOf nl start, start) := by
  obtain ⟨hne, hhd, _, _, hent, _⟩ := hg
  rw [head?_map] at hhd
  cases hp : p.head? with
  | none =>
    rw [hp] at hhd
    simp at hhd
  | some e =>
    rw [hp] at hhd
    simp only [Option.map_some', Option.some.injEq] at hhd
    have hmem : e ∈ p := by
      cases p with
      | nil => simp at hp
      | cons x t =>
        rw [List.head?_cons, Option.some.injEq] at hp
        exact hp ▸ List.mem_cons_self x t
    obtain ⟨he1, _⟩ := hent e hmem
    have : e = (layerOf nl start, start) := by
      cases e with
      | mk l i =>
        simp only at hhd
        rw [Prod.mk.injEq]
        subst hhd
        exact ⟨he1, rfl⟩
    rw [this]

/-- The spliced path of the bridging strategy satisfies the amended path
invariants. -/
lemma splice_pathOk (nl : List (String × NodeInfo)) (startId b1 b2 lbl : String)
    (p1 p2 : List (String × String))
    (h1 : GoodPathTo nl startId b1 p1)
    (h2 : GoodPath nl (neighborsOf nl) b2 p2) :
    pathOk nl (p1.dropLast ++ [(layerOf nl b1, b1)] ++ [("bridge", lbl)] ++
      [(layerOf nl b2, b2)] ++ p2.drop 1) := by
  have hfold1 : p1.dropLast ++ [(layerOf nl b1, b1)] = p1 :=
    dropLast_append_of_getLast? (goodPathTo_last_entry nl startId b1 p1 h1)
  have hfold2 : (layerOf nl b2, b2) :: p2.drop 1 = p2 :=
    cons_drop_one_of_head? (goodPath_head_entry nl (neighborsOf nl) b2 p2 h2)
  have heq : p1.dropLast ++ [(layerOf nl b1, b1)] ++ [("bridge", lbl)] ++
      [(layerOf nl b2, b2)] ++ p2.drop 1 = p1 ++ ("bridge", lbl) :: p2 := by
    rw [hfold1]
    rw [List.append_assoc, List.append_assoc, List.singleton_append, List.singleton_append,
      hfold2]
  rw [heq]
  obtain ⟨h1ne, _, h1ch, h1nd, _, _⟩ := h1
  obtain ⟨h2ne, _, h2ch, h2nd, _, h2last⟩ := h2
  refine ⟨by simp [h1ne], ?_, ?_, ?_⟩
  · rw [getLast?_append_right p1 _ (by simp),
      show ("bridge", lbl) :: p2 = [("bridge", lbl)] ++ p2 from rfl,
      getLast?_append_right [("bridge", lbl)] p2 h2ne]
    exact h2last
  · rw [List.chain'_append]
    refine ⟨chain_entry_of_chain_ids nl (neighborsOf nl) p1
      (mem_expanded_of_mem_neighbors nl) h1ch, ?_, ?_⟩
    · rw [List.chain'_cons']
      refine ⟨fun y _ => Or.inl rfl, chain_entry_of_chain_ids nl (neighborsOf nl) p2
        (mem_expanded_of_mem_neighbors nl) h2ch⟩
    · intro x _ y hy
      rw [List.head?_cons, Option.mem_def, Option.some.injEq] at hy
      rw [← hy]
      exact Or.inr (Or.inl rfl)
  · rw [segs_append_bridge]
    intro s hs
    rcases List.mem_append.mp hs with hs1 | hs2
    · exact segs_nodup_of_nodup p1 h1nd s hs1
    · exact segs_nodup_of_nodup p2 h2nd s hs2

/-- Partial correctness of the bridge loop. -/
lemma tryBridges_spec (nl : List (String × NodeInfo))
    (layers : List (String × List RawRow)) (dist : String → String → ℚ)
    (startId : String) (startComponent : List String)
    (components : List (ℕ × List String)) (startCompId : ℕ) :
    ∀ (compIds : List ℕ) (p : List (String × String)),
      tryBridges nl layers dist startId startComponent components startCompId
        compIds = some p → pathOk nl p := by
  intro compIds
  induction compIds with
  | nil =>
    intro p h
    simp [tryBridges] at h
  | cons compId rest ih =>
    intro p h
    simp only [tryBridges] at h
    by_cases hc : compId = startCompId
    · rw [if_pos hc] at h
      exact ih p h
    · rw [if_neg hc] at h
      cases hcb : closestBetween layers dist startComponent
          (match components.find? (fun p => decide (p.1 = compId)) with
            | some p => p.2
            | none => []) 2000 with
      | none =>
        rw [hcb] at h
        exact ih p h
      | some b =>
        obtain ⟨b1, b2, d⟩ := b
        rw [hcb] at h
        cases hp1 : findPathToNode startId b1 nl with
        | none =>
          simp only [hp1] at h
          exact ih p h
        | some p1 =>
          cases hp2 : findPathFromNodeToSource b2 nl with
          | none =>
            simp only [hp1, hp2] at h
            exact ih p h
          | some p2 =>
            simp only [hp1, hp2, Option.some.injEq] at h
            rw [← h]
            exact splice_pathOk nl startId b1 b2 (b1 ++ "->" ++ b2) p1 p2
              (findPathToNode_spec startId b1 nl p1 hp1)
              (findPathFromNodeToSource_spec b2 nl p2 hp2)

/-- Partial correctness of the bridging strategy. -/
lemma findPathWithBridging_spec (startLayer startId : String)
    (nl : List (String × NodeInfo)) (layers : List (String × List RawRow))
    (dist : String → String → ℚ) (p : List (String × String))
    (h : findPathWithBridging startLayer startId nl layers dist = some p) :
    pathOk nl p := by
  unfold findPathWithBridging at h
  cases h1 : findPathToSource startLayer startId nl with
  | some p0 =>
    rw [h1, Option.some.injEq] at h
    rw [← h]
    exact goodPath_pathOk nl (neighborsOf nl) startId p0
      (mem_expanded_of_mem_neighbors nl)
      (findPathToSource_spec startLayer startId nl p0 h1)
  | none =>
    simp only [h1] at h
    cases h2 : assocFindIdx (buildComponents nl).2 startId with
    | none =>
      simp only [h2] at h
      exact absurd h (by simp)
    | some startCompId =>
      simp only [h2] at h
      split at h
      · exact absurd h (by simp)
      · exact tryBridges_spec nl layers dist startId _ _ _ _ p h

/-- The neighbor step from the start of a BFS path to its second entry. -/
lemma goodPath_second_step (nl : List (String × NodeInfo))
    (nbrs : String → List String) (cur : String) (p : List (String × String))
    (hg : GoodPath nl nbrs cur p) (y : String × String)
    (hy : (p.drop 1).head? = some y) : y.2 ∈ nbrs cur := by
  obtain ⟨hne, hhd, hch, _, _, _⟩ := hg
  cases p with
  | nil => exact absurd rfl hne
  | cons e0 rest =>
    rw [show (e0 :: rest).drop 1 = rest from rfl] at hy
    cases rest with
    | nil => simp at hy
    | cons y0 rest' =>
      rw [List.head?_cons, Option.some.injEq] at hy
      rw [List.map_cons, List.map_cons, List.chain'_cons] at hch
      rw [List.map_cons, List.head?_cons, Option.some.injEq] at hhd
      rw [← hy]
      rw [← hhd]
      exact hch.1

/-- Partial correctness of the multi-hop loop, with the accumulated-path
invariants: the accumulator is a nonempty bridge-chained path ending at the
current node's entry, its bridge-free segments stay duplicate-free under
any nodup continuation starting at the current node, and the current node
is either known not to be a source or recorded with its own layer. -/
lemma multiHopLoop_spec (nl : List (String × NodeInfo))
    (layers : List (String × List RawRow)) (dist : String → String → ℚ) :
    ∀ (hops : ℕ) (cur : String) (acc : List (String × String)),
      acc ≠ [] →
      (∃ lyr, acc.getLast? = some (lyr, cur)) →
      List.Chain' (entryStepOk nl) acc →
      (∀ q : List (String × String), (cur :: q.map Prod.snd).Nodup →
        ∀ s ∈ segs (acc ++ q), (s.map Prod.snd).Nodup) →
      ((∀ nd, lookupNode nl cur = some nd → nd.layer ≠ SOURCE_SUBSTATION_LAYER) ∨
        acc.getLast? = some (layerOf nl cur, cur)) →
      ∀ p, multiHopLoop nl layers dist hops cur acc = some p → pathOk nl p := by
  intro hops
  induction hops with
  | zero =>
    intro cur acc _ _ _ _ _ p h
    simp [multiHopLoop] at h
  | succ hops ih =>
    intro cur acc hne hlastE hch hsegs hsrc p h
    simp only [multiHopLoop] at h
    cases hfp : findPathFromNodeToSource cur nl with
    | some p0 =>
      simp only [hfp, Option.some.injEq] at h
      rw [← h]
      have hg := findPathFromNodeToSource_spec cur nl p0 hfp
      obtain ⟨hp0ne, hp0hd, hp0ch, hp0nd, hp0ent, hp0last⟩ := hg
      have hids : cur :: (p0.drop 1).map Prod.snd = p0.map Prod.snd := by
        rw [List.map_drop]
        exact cons_drop_one_of_head? hp0hd
      refine ⟨fun hc => hne (List.append_eq_nil.mp hc).1, ?_, ?_, ?_⟩
      · cases hd1 : p0.drop 1 with
        | nil =>
          rw [List.append_nil]
          have hp0single : ∃ e0, p0 = [e0] := by
            cases p0 with
            | nil => exact absurd rfl hp0ne
            | cons e0 rest =>
              rw [show (e0 :: rest).drop 1 = rest from rfl] at hd1
              exact ⟨e0, by rw [hd1]⟩
          obtain ⟨e0, he0⟩ := hp0single
          obtain ⟨elast, hel, hsl⟩ := hp0last
          rw [he0] at hel
          have helast : elast = e0 := by
            rw [show ([e0] : List (String × String)).getLast? = some e0 from rfl,
              Option.some.injEq] at hel
            exact hel.symm
          have he0cur : e0.2 = cur := by
            rw [he0, List.map_cons, List.head?_cons, Option.some.injEq] at hp0hd
            exact hp0hd
          obtain ⟨he0lyr, he0lk⟩ := hp0ent e0 (he0 ▸ List.mem_cons_self e0 [])
          have hlaycur : layerOf nl cur = SOURCE_SUBSTATION_LAYER := by
            rw [← he0cur, ← he0lyr]
            exact helast ▸ hsl
          rcases hsrc with hl | hr
          · exfalso
            cases hlk : lookupNode nl cur with
            | none =>
              rw [he0cur, hlk] at he0lk
              simp at he0lk
            | some nd =>
              have hnds : nd.layer = SOURCE_SUBSTATION_LAYER := by
                unfold layerOf at hlaycur
                rw [hlk] at hlaycur
                exact hlaycur
              exact hl nd hlk hnds
          · exact ⟨(layerOf nl cur, cur), hr, hlaycur⟩
        | cons y t =>
          obtain ⟨elast, hel, hsl⟩ := hp0last
          refine ⟨elast, ?_, hsl⟩
          rw [getLast?_append_right acc _ (List.cons_ne_nil y t)]
          cases p0 with
          | nil => exact absurd rfl hp0ne
          | cons e0 rest =>
            rw [show (e0 :: rest).drop 1 = rest from rfl] at hd1
            rw [hd1, List.getLast?_cons_cons] at hel
            exact hel
      · rw [List.chain'_append]
        refine ⟨hch, ?_, ?_⟩
        · have hc : List.Chain' (entryStepOk nl) p0 :=
            chain_entry_of_chain_ids nl (neighborsOf nl) p0
              (mem_expanded_of_mem_neighbors nl) hp0ch
          rw [List.drop_one]
          exact hc.tail
        · intro x hx y hy
          obtain ⟨lyr, hlst⟩ := hlastE
          rw [Option.mem_def, hlst, Option.some.injEq] at hx
          rw [Option.mem_def] at hy
          have hyn : y.2 ∈ neighborsOf nl cur :=
            goodPath_second_step nl (neighborsOf nl) cur p0
              ⟨hp0ne, hp0hd, hp0ch, hp0nd, hp0ent, hp0last⟩ y hy
          rw [← hx]
          exact Or.inr (Or.inr (mem_expanded_of_mem_neighbors nl cur y.2 hyn))
      · intro s hs
        exact hsegs (p0.drop 1) (by rw [hids]; exact hp0nd) s hs
    | none =>
      simp only [hfp] at h
      split at h
      · simp at h
      · split at h
        · simp at h
        · rename_i hcond x b1 b2 d hcb
          apply ih _ _ ?_ ?_ ?_ ?_ ?_ p h
          · exact fun hc => hne (List.append_eq_nil.mp hc).1
          · refine ⟨layerOf nl b2, ?_⟩
            rw [getLast?_append_right acc _ (by simp)]
            rfl
          · rw [List.chain'_append]
            refine ⟨hch, ?_, ?_⟩
            · rw [List.chain'_cons]
              exact ⟨Or.inl rfl, List.chain'_singleton _⟩
            · intro x _ y hy
              rw [Option.mem_def, List.head?_cons, Option.some.injEq] at hy
              rw [← hy]
              exact Or.inr (Or.inl rfl)
          · intro q hq s hs
            rw [List.append_assoc, List.cons_append, List.cons_append,
              List.nil_append, segs_append_bridge] at hs
            rcases List.mem_append.mp hs with hs1 | hs2
            · have h0 := hsegs [] (by simp) s
              rw [List.append_nil] at h0
              exact h0 hs1
            · exact segs_nodup_of_nodup ((layerOf nl b2, b2) :: q)
                (by rw [List.map_cons]; exact hq) s hs2
          · refine Or.inr ?_
            rw [getLast?_append_right acc _ (by simp)]
            rfl

/-- If the direct BFS fails although the start id is present in the lookup,
the start node is not itself on the source-substation layer: the first
dequeue would have returned it immediately. -/
lemma findPathToSource_none_layer (startLayer startId : String)
    (nl : List (String × NodeInfo)) (nd : NodeInfo)
    (hlk : lookupNode nl startId = some nd)
    (h : findPathToSource startLayer startId nl = none) :
    nd.layer ≠ SOURCE_SUBSTATION_LAYER := by
  intro hl
  unfold findPathToSource at h
  rw [if_pos (by rw [hlk]; rfl)] at h
  rw [show bfsFuel nl = nl.length + 1 + 1 from rfl] at h
  simp only [bfsToLayer, hlk] at h
  rw [if_pos hl] at h
  exact absurd h (by simp)

/-- C6: Every path returned by `find_path_with_fallbacks` (whichever of the
four strategies produced it) is non-empty, ends at an entry of the
source-substation layer, every consecutive pair of entries is either
separated by a `"bridge"`-labeled entry or steps to an id in the
endpoint-augmented neighborhood of the previous id (stored connections
plus the feature's start/end connection lists), and no id repeats inside
a bridge-free segment. -/
theorem path_finder_invariants (startLayer startId : String)
    (nl : List (String × NodeInfo)) (layers : List (String × List RawRow))
    (dist : String → String → ℚ) (p : List (String × String))
    (h : findPathWithFallbacks startLayer startId nl layers dist = some p) :
    pathOk nl p := by
  unfold findPathWithFallbacks at h
  cases h1 : findPathToSource startLayer startId nl with
  | some p1 =>
    simp only [h1, Option.some.injEq] at h
    rw [← h]
    exact goodPath_pathOk nl (neighborsOf nl) startId p1
      (mem_expanded_of_mem_neighbors nl)
      (findPathToSource_spec startLayer startId nl p1 h1)
  | none =>
    simp only [h1] at h
    cases h2 : findPathWithRelaxed startLayer startId nl with
    | some p2 =>
      simp only [h2, Option.some.injEq] at h
      rw [← h]
      exact goodPath_pathOk nl (expandedNeighborsOf nl) startId p2
        (fun _ _ hb => hb)
        (findPathWithRelaxed_spec startLayer startId nl p2 h2)
    | none =>
      simp only [h2] at h
      cases h3 : findPathWithBridging startLayer startId nl layers dist with
      | some p3 =>
        simp only [h3, Option.some.injEq] at h
        rw [← h]
        exact findPathWithBridging_spec startLayer startId nl layers dist p3 h3
      | none =>
        simp only [h3] at h
        unfold findPathWithMultipleHops at h
        apply multiHopLoop_spec nl layers dist 3 startId [(startLayer, startId)]
          ?_ ?_ ?_ ?_ ?_ p h
        · simp
        · exact ⟨startLayer, rfl⟩
        · exact List.chain'_singleton _
        · intro q hq s hs
          exact segs_nodup_of_nodup ((startLayer, startId) :: q)
            (by rw [List.map_cons]; exact hq) s hs
        · exact Or.inl (fun nd hlk =>
            findPathToSource_none_layer startLayer startId nl nd hlk h1)

/-- Concrete two-node network for exercising the relaxed strategy: feature
`A` has no stored connections but lists `B` among its start-endpoint
connections; `B` is a source substation. -/
def c6Layers : List (String × List RawRow) :=
  [("reseau_bt", [⟨"A", [], ["B"], []⟩]),
   ("postes_source", [⟨"B", [], [], []⟩])]

def c6Lookup : List (String × NodeInfo) := buildNetworkLookup c6Layers

theorem path_finder_invariants_witness :
    findPathWithFallbacks "reseau_bt" "A" c6Lookup c6Layers (fun _ _ => 0) =
      some [("reseau_bt", "A"), ("postes_source", "B")] ∧
    pathOk c6Lookup [("reseau_bt", "A"), ("postes_source", "B")] :=
  ⟨by decide,
    path_finder_invariants "reseau_bt" "A" c6Lookup c6Layers (fun _ _ => 0)
      [("reseau_bt", "A"), ("postes_source", "B")] (by decide)⟩

/-- The relaxed-connections strategy (strategy 2) returns a path whose
consecutive entries are NOT adjacent in the graph handed to the path
finder — the step uses `A`'s start-endpoint connection list, not a stored
connection — and carries no bridge marker between them, refuting the
graph-adjacent-or-bridge reading of the path invariant. -/
theorem strategy_two_step_not_graph_adjacent :
    findPathWithFallbacks "reseau_bt" "A" c6Lookup c6Layers (fun _ _ => 0) =
      some [("reseau_bt", "A"), ("postes_source", "B")] ∧
    ¬ ("B" ∈ neighborsOf c6Lookup "A" ∨ "A" ∈ neighborsOf c6Lookup "B") ∧
    ∀ e ∈ [("reseau_bt", "A"), ("postes_source", "B")], e.1 ≠ "bridge" := by
  decide

/-- A 12-node chain: `n0 → n1 → ⋯ → n11`, the last node being a source
substation.  Each intermediate node also lists the absent id `"zz"`, so no
connection list has length one and none is collapsed to a string by the
loader. -/
def c7Chain : List (String × NodeInfo) :=
  [("n0", ⟨"reseau_bt", ConnVal.list ["n1", "zz"], [], []⟩),
   ("n1", ⟨"reseau_bt", ConnVal.list ["n2", "zz"], [], []⟩),
   ("n2", ⟨"reseau_bt", ConnVal.list ["n3", "zz"], [], []⟩),
   ("n3", ⟨"reseau_bt", ConnVal.list ["n4", "zz"], [], []⟩),
   ("n4", ⟨"reseau_bt", ConnVal.list ["n5", "zz"], [], []⟩),
   ("n5", ⟨"reseau_bt", ConnVal.list ["n6", "zz"], [], []⟩),
   ("n6", ⟨"reseau_bt", ConnVal.list ["n7", "zz"], [], []⟩),
   ("n7", ⟨"reseau_bt", ConnVal.list ["n8", "zz"], [], []⟩),
   ("n8", ⟨"reseau_bt", ConnVal.list ["n9", "zz"], [], []⟩),
   ("n9", ⟨"reseau_bt", ConnVal.list ["n10", "zz"], [], []⟩),
   ("n10", ⟨"reseau_bt", ConnVal.list ["n11", "zz"], [], []⟩),
   ("n11", ⟨"postes_source", ConnVal.list [], [], []⟩)]

/-- `find_path_to_source` of `network_path_finder/pathfinding.py` (the
direct BFS, strategy 1) has no depth bound: on a 12-node chain it returns
the full 12-element path, so nodes deeper than 10 are dequeued and
returned, refuting the claimed `max_depth = 10` cap for this strategy. -/
theorem strategy_one_exceeds_default_depth :
    (findPathToSource "reseau_bt" "n0" c7Chain).map List.length = some 12 := by
  decide

end NetworkPathFinder

namespace Enepro

/-- One entry of the `connections_cache` dictionary consumed by
`enepro_site_orange_analysis/pathfinding.py`: the feature's layer and its
parsed connection-id list. -/
structure CacheNode where
  layer : String
  connections : List String
deriving DecidableEq, Repr

/-- `current_id in connections_cache` / `connections_cache[current_id]`. -/
def lookupCache : List (String × CacheNode) → String → Option CacheNode
  | [], _ => none
  | p :: l, k => if p.1 = k then some p.2 else lookupCache l k

/-- The `while queue:` loop of `find_path_bfs`: dequeue; skip the entry
when its path already exceeds `max_depth`; skip when already visited; mark
visited; skip ids absent from the cache; return `(current_id, path)` when
the layer matches the target; otherwise enqueue the unvisited connections
with the extended path.  Unlike the loops of `network_path_finder`, the
visited check happens at dequeue time, so the queue can hold duplicates
and the loop is bounded here by an explicit fuel argument. -/
def findPathBFSLoop (cache : List (String × CacheNode)) (targetLayer : String)
    (maxDepth : ℕ) :
    ℕ → List (String × List String) → List String → Option (String × List String)
  | 0, _, _ => none
  | _ + 1, [], _ => none
  | fuel + 1, (cur, path) :: rest, visited =>
    if maxDepth < path.length then
      findPathBFSLoop cache targetLayer maxDepth fuel rest visited
    else if cur ∈ visited then
      findPathBFSLoop cache targetLayer maxDepth fuel rest visited
    else
      match lookupCache cache cur with
      | none => findPathBFSLoop cache targetLayer maxDepth fuel rest (cur :: visited)
      | some info =>
        if info.layer = targetLayer then some (cur, path)
        else
          findPathBFSLoop cache targetLayer maxDepth fuel
            (rest ++ (info.connections.filter
              (fun c => decide (c ∉ cur :: visited))).map
              (fun c => (c, path ++ [c])))
            (cur :: visited)

/-- `find_path_bfs` of `enepro_site_orange_analysis/pathfinding.py` with
its initial queue `[(start_id, [start_id])]` and empty visited set; the
Python default is `max_depth = 10`. -/
def findPathBFS (startId : String) (cache : List (String × CacheNode))
    (targetLayer : String) (maxDepth fuel : ℕ) :
    Option (String × List String) :=
  findPathBFSLoop cache targetLayer maxDepth fuel [(startId, [startId])] []

lemma findPathBFSLoop_depth (cache : List (String × CacheNode))
    (targetLayer : String) (maxDepth : ℕ) :
    ∀ (fuel : ℕ) (q : List (String × List String)) (visited : List String)
      (id : String) (path : List String),
      findPathBFSLoop cache targetLayer maxDepth fuel q visited = some (id, path) →
      path.length ≤ maxDepth := by
  intro fuel
  induction fuel with
  | zero =>
    intro q visited id path h
    simp [findPathBFSLoop] at h
  | succ fuel ih =>
    intro q visited id path h
    cases q with
    | nil => simp [findPathBFSLoop] at h
    | cons ent rest =>
      obtain ⟨cur, p0⟩ := ent
      by_cases hd : maxDepth < p0.length
      · simp only [findPathBFSLoop, if_pos hd] at h
        exact ih _ _ _ _ h
      · simp only [findPathBFSLoop, if_neg hd] at h
        by_cases hv : cur ∈ visited
        · rw [if_pos hv] at h
          exact ih _ _ _ _ h
        · rw [if_neg hv] at h
          cases hlk : lookupCache cache cur with
          | none =>
            simp only [hlk] at h
            exact ih _ _ _ _ h
          | some info =>
            simp only [hlk] at h
            by_cases ht : info.layer = targetLayer
            · rw [if_pos ht, Option.some.injEq] at h
              injection h with h1 h2
              subst h2
              exact Nat.le_of_not_lt hd
            · rw [if_neg ht] at h
              exact ih _ _ _ _ h

/-- C7: The depth cap of the spec is implemented only in
`enepro_site_orange_analysis/pathfinding.py`: whenever `find_path_bfs`
returns a path (for any cache, target layer, `max_depth` and loop bound),
that path has at most `max_depth` elements, because entries whose path
exceeds `max_depth` are skipped at dequeue time.  The direct BFS
(strategy 1) of `network_path_finder/pathfinding.py` has no such cap. -/
theorem find_path_bfs_depth_cap (startId : String)
    (cache : List (String × CacheNode)) (targetLayer : String)
    (maxDepth fuel : ℕ) (id : String) (path : List String)
    (h : findPathBFS startId cache targetLayer maxDepth fuel = some (id, path)) :
    path.length ≤ maxDepth := by
  unfold findPathBFS at h
  exact findPathBFSLoop_depth cache targetLayer maxDepth fuel _ _ id path h

theorem find_path_bfs_depth_cap_witness :
    findPathBFS "a" [("a", ⟨"cible", []⟩)] "cible" 10 3 = some ("a", ["a"]) ∧
    ["a"].length ≤ 10 :=
  ⟨by decide,
    find_path_bfs_depth_cap "a" [("a", ⟨"cible", []⟩)] "cible" 10 3 "a" ["a"]
      (by decide)⟩

end Enepro

namespace Finder

/-- `MAX_BT_DISTANCE` of `network_path_finder/config.py` (compared against
kilometre distances by the code). -/
def MAX_BT_DISTANCE : ℚ := 10000

/-- `BT_LAYERS` of `network_path_finder/config.py`. -/
def BT_LAYERS : List String := ["reseau_bt", "reseau_souterrain_bt"]

/-- Stable insertion by the distance key, modeling
`all_distances.sort()` (Python's tuple sort orders by the distance first;
only the distance key is relevant to the properties proved here). -/
def insertByKm (x : ℚ × String × String) :
    List (ℚ × String × String) → List (ℚ × String × String)
  | [] => [x]
  | y :: ys => if y.1 ≤ x.1 then y :: insertByKm x ys else x :: y :: ys

def sortByKm (l : List (ℚ × String × String)) : List (ℚ × String × String) :=
  l.foldr insertByKm []

/-- The accumulation loop of `find_closest_bt_elements`
(`network_path_finder/geo.py`): for each configured BT layer present in
the loaded layers, keep every feature whose projected distance
(`distM`, in metres, an oracle for the EPSG:3857 geometry distance),
divided by 1000, is at most `MAX_BT_DISTANCE`. -/
def btCandidates (layers : List (String × List String)) (distM : String → ℚ)
    (lns : List String) : List (ℚ × String × String) :=
  lns.foldr (fun layerName acc =>
    match layers.find? (fun p => decide (p.1 = layerName)) with
    | none => acc
    | some p =>
      (p.2.filterMap (fun fid =>
        if distM fid / 1000 ≤ MAX_BT_DISTANCE then
          some (distM fid / 1000, layerName, fid)
        else none)) ++ acc) []

/-- `find_closest_bt_elements`: the kept candidates sorted by distance,
truncated to `max_elements` (the caller in `finder.py` passes 20). -/
def findClosestBTElements (layers : List (String × List String))
    (distM : String → ℚ) (maxElements : ℕ) : List (ℚ × String × String) :=
  (sortByKm (btCandidates layers distM BT_LAYERS)).take maxElements

/-- The `results` dictionary assembled by `find_closest_path`
(`network_path_finder/finder.py`): the `success` flag, the closest BT
element recorded (layer, id, distance_km) when one exists, and the
bridge-filtered display path on success. -/
structure QueryResults where
  success : Bool
  closestBT : Option (String × String × ℚ)
  pathToSource : Option (List (String × String))
deriving DecidableEq, Repr

/-- The `for i, closest_info in enumerate(closest_elements)` attempt loop:
stop (`break`) when the recorded distance exceeds `MAX_BT_DISTANCE`
(unreachable, the candidates were filtered with `≤`), otherwise run the
fallback path finder (`pathFor`, an oracle for
`find_path_with_fallbacks`) and succeed on the first truthy path. -/
def attemptLoop (pathFor : String → String → Option (List (String × String))) :
    List (ℚ × String × String) →
    Option (String × String × ℚ × List (String × String))
  | [] => none
  | (dkm, layerName, fid) :: rest =>
    if MAX_BT_DISTANCE < dkm then none
    else
      match pathFor layerName fid with
      | some path =>
        if path.isEmpty then attemptLoop pathFor rest
        else some (layerName, fid, dkm,
          path.filter (fun e => decide (e.1 ≠ "bridge")))
      | none => attemptLoop pathFor rest

/-- `find_closest_path` (`network_path_finder/finder.py`): `None` when no
layers load; `None` again — a bare null, with only a log line — when
`find_closest_bt_elements` returns no element within the cap; otherwise
the structured `results` dictionary, with `success = true` and the display
path when some attempt found a path, and `success = false` with the first
candidate recorded when none did. -/
def findClosestPath (layers : List (String × List String))
    (distM : String → ℚ)
    (pathFor : String → String → Option (List (String × String))) :
    Option QueryResults :=
  if layers.isEmpty then none
  else
    let closestElements := findClosestBTElements layers distM 20
    if closestElements.isEmpty then none
    else
      match attemptLoop pathFor closestElements with
      | some (layerName, fid, dkm, displayPath) =>
        some ⟨true, some (layerName, fid, dkm), some displayPath⟩
      | none =>
        match closestElements with
        | (dkm, layerName, fid) :: _ => some ⟨false, some (layerName, fid, dkm), none⟩
        | [] => some ⟨false, none, none⟩

lemma beyondCap_aux (layers : List (String × List String))
    (distM : String → ℚ)
    (pathFor : String → String → Option (List (String × String)))
    (hfar : ∀ p ∈ layers, p.1 ∈ BT_LAYERS →
      ∀ fid ∈ p.2, MAX_BT_DISTANCE < distM fid / 1000) :
    findClosestBTElements layers distM 20 = [] ∧
    findClosestPath layers distM pathFor = none := by
  have hcand : ∀ lns : List String, (∀ ln ∈ lns, ln ∈ BT_LAYERS) →
      btCandidates layers distM lns = [] := by
    intro lns
    induction lns with
    | nil => intro _; rfl
    | cons ln lns ih =>
      intro hsub
      unfold btCandidates
      rw [List.foldr_cons]
      have hrest : btCandidates layers distM lns = []
        := ih (fun x hx => hsub x (List.mem_cons.mpr (Or.inr hx)))
      unfold btCandidates at hrest
      rw [hrest]
      cases hf : layers.find? (fun p => decide (p.1 = ln)) with
      | none => rfl
      | some p =>
        have hpm : p ∈ layers := List.mem_of_find?_eq_some hf
        have hpl : p.1 = ln := by
          have := List.find?_some hf
          simpa using this
        have hln : p.1 ∈ BT_LAYERS := hpl ▸ hsub ln (List.mem_cons_self ln lns)
        have hnil : p.2.filterMap (fun fid =>
            if distM fid / 1000 ≤ MAX_BT_DISTANCE then
              some (distM fid / 1000, ln, fid) else none) = [] := by
          rw [List.filterMap_eq_nil]
          intro fid hfid
          rw [if_neg (not_le.mpr (hfar p hpm hln fid hfid))]
        show p.2.filterMap (fun fid =>
            if distM fid / 1000 ≤ MAX_BT_DISTANCE then
              some (distM fid / 1000, ln, fid) else none) ++ [] = []
        rw [hnil]
        rfl
  have hbt : findClosestBTElements layers distM 20 = [] := by
    unfold findClosestBTElements
    rw [hcand BT_LAYERS (fun x hx => hx)]
    rfl
  refine ⟨hbt, ?_⟩
  unfold findClosestPath
  by_cases hemp : layers.isEmpty = true
  · rw [if_pos hemp]
  · rw [if_neg hemp]
    rw [hbt]
    rfl

/-- C8: When every feature of the loaded low-voltage layers lies strictly
beyond `MAX_BT_DISTANCE` (in km of projected distance), the candidate list
is empty and `find_closest_path` returns a bare `None` — not a structured
result carrying `success = false` and a reason; the structured failure
record is only produced when some BT element lies within the cap but no
path is found from any of them. -/
theorem beyond_cap_returns_bare_none (layers : List (String × List String))
    (distM : String → ℚ)
    (pathFor : String → String → Option (List (String × String)))
    (hfar : ∀ p ∈ layers, p.1 ∈ BT_LAYERS →
      ∀ fid ∈ p.2, MAX_BT_DISTANCE < distM fid / 1000) :
    findClosestBTElements layers distM 20 = [] ∧
    findClosestPath layers distM pathFor = none :=
  beyondCap_aux layers distM pathFor hfar

/-- A single BT layer whose only feature sits 20000 km away from the query
point (projected distance 20000000 m). -/
def c8Layers : List (String × List String) := [("reseau_bt", ["b1"])]

def c8DistM : String → ℚ := fun _ => 20000000

lemma c8_far : ∀ p ∈ c8Layers, p.1 ∈ BT_LAYERS →
    ∀ fid ∈ p.2, MAX_BT_DISTANCE < c8DistM fid / 1000 := by
  intro p hp _ fid _
  have hp1 : p = ("reseau_bt", ["b1"]) := List.mem_singleton.mp hp
  show MAX_BT_DISTANCE < c8DistM fid / 1000
  show (10000 : ℚ) < 20000000 / 1000
  norm_num

theorem beyond_cap_returns_bare_none_witness :
    (∀ p ∈ c8Layers, p.1 ∈ BT_LAYERS →
      ∀ fid ∈ p.2, MAX_BT_DISTANCE < c8DistM fid / 1000) ∧
    findClosestBTElements c8Layers c8DistM 20 = [] ∧
    findClosestPath c8Layers c8DistM (fun _ _ => none) = none :=
  ⟨c8_far, beyond_cap_returns_bare_none c8Layers c8DistM (fun _ _ => none) c8_far⟩

/-- The beyond-cap query produces no `QueryResults` record at all: there is
no returned structure carrying `success = false` and a reason — the claim
that such failures are structured is refuted by this bare `None`. -/
theorem beyond_cap_result_unstructured :
    findClosestPath c8Layers c8DistM (fun _ _ => none) = none ∧
    ¬ ∃ r : QueryResults,
      findClosestPath c8Layers c8DistM (fun _ _ => none) = some r := by
  have h := beyondCap_aux c8Layers c8DistM (fun _ _ => none) c8_far
  refine ⟨h.2, ?_⟩
  rintro ⟨r, hr⟩
  rw [h.2] at hr
  exact absurd hr (by simp)

end Finder
